import Mathlib

/-!
Verification of the BangaloreNow event pipeline and map frontend.

The repository's pipeline stages (Normalizer / Consolidator / Loader,
`output_enhancer.py`, `consolidate_events.py`, `load_to_supabase.py`) are
documented but their Python sources are not part of this snapshot, so the
stage logic below is modelled from the specification's wording; the frontend
functions (`fetchEventDetails`, `handleInputChange`) are embedded from the
JSX sources directly.
-/

namespace BNow

/-! ## Character-list utilities shared by the modelled pipeline stages -/

/-- Lower-cased character list of a string. -/
def lowerChars (s : String) : List Char := s.data.map Char.toLower

/-- Trim whitespace from both ends of a character list. -/
def trimChars (l : List Char) : List Char :=
  ((l.dropWhile Char.isWhitespace).reverse.dropWhile Char.isWhitespace).reverse

/-- Boolean test that `a` is a prefix of `b`. -/
def isPrefixOfB : List Char → List Char → Bool
  | [], _ => true
  | _ :: _, [] => false
  | a :: as, b :: bs => (a == b) && isPrefixOfB as bs

/-- Boolean test that `a` is a suffix of `b`. -/
def isSuffixOfB (a b : List Char) : Bool := isPrefixOfB a.reverse b.reverse

/-- Boolean test that `needle` occurs contiguously inside `hay`. -/
def containsSeq (needle : List Char) : List Char → Bool
  | [] => isPrefixOfB needle []
  | c :: t => isPrefixOfB needle (c :: t) || containsSeq needle t

/-- Drop leading whitespace. -/
def dropSpaces (l : List Char) : List Char := l.dropWhile Char.isWhitespace

/-! ## Time normalization (Normalizer)

Modelled from the spec: `output_enhancer.py`'s time normalization is absent
from the snapshot; the spec's contract is "strip known filler suffixes, parse
hour/optional-minute/am-pm markers case-insensitively, emit zero-padded
24-hour `HH:MM`; unparseable input yields null (not a thrown error)". -/

/-- Modelled from the spec: the known filler suffixes stripped before time
parsing ("optionally suffixed with filler words like `onwards`"). -/
def fillerSuffixes : List (List Char) := [String.data "onwards"]

/-- Strip one known filler suffix, then re-trim. -/
def stripFiller (l : List Char) : List Char :=
  match fillerSuffixes.find? (fun suf => isSuffixOfB suf l) with
  | some suf => trimChars (l.take (l.length - suf.length))
  | none => l

/-- Consume a maximal run of leading decimal digits. -/
def takeDigits : List Char → List Char × List Char
  | [] => ([], [])
  | c :: t =>
    if c.isDigit then
      let (d, r) := takeDigits t
      (c :: d, r)
    else ([], c :: t)

/-- Numeric value of a digit list. -/
def natOfDigits (l : List Char) : Nat := l.foldl (fun a c => 10 * a + (c.toNat - 48)) 0

/-- Zero-pad a number to two digits. -/
def pad2 (n : Nat) : String := if n < 10 then "0" ++ toString n else toString n

/-- Render an hour/minute pair as `HH:MM`. -/
def formatHHMM (h m : Nat) : String := pad2 h ++ ":" ++ pad2 m

/-- Convert a parsed hour/minute and optional meridiem marker
(`some true` = pm, `some false` = am, `none` = no marker) to 24-hour time,
rejecting out-of-range components. -/
def to24 (h m : Nat) (mark : Option Bool) : Option (Nat × Nat) :=
  if 60 ≤ m then none
  else
    match mark with
    | some isPm =>
      if 1 ≤ h ∧ h ≤ 12 then
        if isPm then some (if h = 12 then 12 else h + 12, m)
        else some (if h = 12 then 0 else h, m)
      else none
    | none => if h ≤ 23 then some (h, m) else none

/-- After the digits of a time string, read an optional am/pm marker and
require the remainder to be empty. -/
def finishTime (h m : Nat) (rest : List Char) : Option (Nat × Nat) :=
  match rest with
  | 'a' :: 'm' :: r => if dropSpaces r = [] then to24 h m (some false) else none
  | 'p' :: 'm' :: r => if dropSpaces r = [] then to24 h m (some true) else none
  | [] => to24 h m none
  | _ => none

/-- After the hour and a `':'`, read the minute digits. -/
def parseMinutes (h : Nat) (md r3 : List Char) : Option (Nat × Nat) :=
  if md.isEmpty then none else finishTime h (natOfDigits md) (dropSpaces r3)

/-- After the hour digits: optional `:MM`, then the am/pm tail. -/
def parseRest (h : Nat) : List Char → Option (Nat × Nat)
  | ':' :: r2 => parseMinutes h (takeDigits r2).1 (takeDigits r2).2
  | r1 => finishTime h 0 (dropSpaces r1)

/-- Dispatch on the hour digits consumed from the front. -/
def parseAfterDigits (hd r1 : List Char) : Option (Nat × Nat) :=
  if hd.isEmpty then none else parseRest (natOfDigits hd) r1

/-- Parse `H[:MM][ ](am|pm)` from a lower-cased character list. -/
def parseTimeCore (l : List Char) : Option (Nat × Nat) :=
  parseAfterDigits (takeDigits (dropSpaces l)).1 (takeDigits (dropSpaces l)).2

/-- Modelled from the spec: time normalization of `output_enhancer.py`.
Lower-cases and trims the input, strips filler suffixes, parses
hour/optional-minute/am-pm, and emits zero-padded 24-hour `HH:MM`;
anything unparseable yields `none`. -/
def normalize_time (s : String) : Option String :=
  match parseTimeCore (stripFiller (trimChars (lowerChars s))) with
  | some (h, m) => some (formatHHMM h m)
  | none => none

/-- A string is a well-formed zero-padded 24-hour `HH:MM` rendering. -/
def WellFormedHHMM (t : String) : Prop :=
  ∃ h m, h < 24 ∧ m < 60 ∧ t = formatHHMM h m

example : normalize_time "5 PM" = some "17:00" := by decide
example : normalize_time "5:30 pm" = some "17:30" := by decide
example : normalize_time "9am" = some "09:00" := by decide
example : normalize_time "noon onwards" = none := by decide
example : normalize_time "10:15" = some "10:15" := by decide

/-! ## Venue classification and address-confidence scoring (Normalizer)

Modelled from the spec: `output_enhancer.py` is absent from the snapshot.
The spec's venue/address resolution: (1) reject placeholder venue names
(placeholder lexicon, >80 characters, marketing jargon); (2) concatenate
venue + address + city, collapsing immediate repeated city mentions;
(3) score confidence by scanning the composed string for address signals. -/

/-- Modelled from the spec: the placeholder lexicon
(`"venue"`, `"tba"`, `"to be announced"`, `"n/a"`, empty). -/
def placeholderLexicon : List (List Char) :=
  [String.data "venue", String.data "tba", String.data "to be announced",
   String.data "n/a", []]

/-- Modelled from the spec: the marketing/action jargon words
(`"learn"`, `"discover"`, `"workshop"`, `"training"`). -/
def jargonWords : List (List Char) :=
  [String.data "learn", String.data "discover", String.data "workshop",
   String.data "training"]

/-- Modelled from the spec: the fixed vocabulary of location nouns. -/
def locationNouns : List (List Char) :=
  [String.data "road", String.data "street", String.data "nagar",
   String.data "layout", String.data "mall", String.data "campus",
   String.data "auditorium", String.data "park"]

/-- Case-insensitive canonical key of a string (lower-cased and trimmed). -/
def normKey (s : String) : List Char := trimChars (lowerChars s)

/-- Modelled from the spec: classification of a raw venue-name string as a
placeholder (not a valid venue candidate): it matches the placeholder
lexicon, is longer than 80 characters, or contains marketing jargon. -/
def is_placeholder_venue (v : String) : Bool :=
  let l := normKey v
  placeholderLexicon.contains l
    || decide (80 < l.length)
    || jargonWords.any (fun w => containsSeq w l)

/-- A tri-level address confidence. -/
inductive Confidence
  | high
  | medium
  | low
deriving DecidableEq

/-- Numeric rank of a confidence level, used by the merge precedence. -/
def confRank : Confidence → Nat
  | .high => 2
  | .medium => 1
  | .low => 0

/-- Does the character list contain a run of 3+ consecutive digits
(the street-number pattern)? -/
def hasDigitRun3 : List Char → Bool
  | a :: b :: c :: t =>
    (a.isDigit && b.isDigit && c.isDigit) || hasDigitRun3 (b :: c :: t)
  | _ => false

/-- Does the list start with the local postal-code pattern: the region
prefix `560` followed by two more digits? -/
def postalAt : List Char → Bool
  | '5' :: '6' :: '0' :: d1 :: d2 :: _ => d1.isDigit && d2.isDigit
  | _ => false

/-- Does the character list contain the local postal-code pattern anywhere? -/
def hasPostalCode : List Char → Bool
  | [] => false
  | c :: t => postalAt (c :: t) || hasPostalCode t

/-- Strong address signal: postal code or street-number pattern. -/
def hasStrongSignal (l : List Char) : Bool := hasDigitRun3 l || hasPostalCode l

/-- Weaker address signal: one of the fixed location nouns occurs. -/
def hasLocationNoun (l : List Char) : Bool :=
  locationNouns.any (fun w => containsSeq w l)

/-- Modelled from the spec: confidence scoring of a composed venue/address
string — strong signal ⇒ high, locational noun only ⇒ medium, else low. -/
def address_confidence_of (s : String) : Confidence :=
  let l := lowerChars s
  if hasStrongSignal l then .high
  else if hasLocationNoun l then .medium
  else .low

/-- The parts contributed to the composed venue/address string: a valid
venue candidate, a non-empty address fragment, and a non-empty city. -/
def candParts (venue address city : Option String) : List String :=
  (match venue with
   | some v => if is_placeholder_venue v then [] else [v]
   | none => []) ++
  (match address with
   | some a => if normKey a = [] then [] else [a]
   | none => []) ++
  (match city with
   | some c => if normKey c = [] then [] else [c]
   | none => [])

/-- Collapse immediately repeated mentions (case-insensitively), e.g.
`"Bangalore", "Bangalore"` → `"Bangalore"`. -/
def dedupAdjacent : List String → List String
  | [] => []
  | p :: t =>
    match dedupAdjacent t with
    | [] => [p]
    | q :: r => if normKey p = normKey q then q :: r else p :: q :: r

/-- Join address parts with `", "`. -/
def joinParts : List String → String
  | [] => ""
  | [p] => p
  | p :: t => p ++ ", " ++ joinParts t

/-- Modelled from the spec: the resolved venue/address string of
`output_enhancer.py` — venue (when a valid candidate) + address + city,
with immediate duplicate mentions collapsed. -/
def resolve_venue_address (venue address city : Option String) : String :=
  joinParts (dedupAdjacent (candParts venue address city))

example :
    resolve_venue_address (some "Microsoft India Office")
      (some "One Microsoft, Outer Ring Road, Devarabeesanahalli")
      (some "Bangalore") =
    "Microsoft India Office, One Microsoft, Outer Ring Road, Devarabeesanahalli, Bangalore" := by
  decide

example :
    resolve_venue_address (some "Learn Data Science Workshop")
      (some "Bangalore") (some "Bangalore") = "Bangalore" := by decide

example :
    address_confidence_of
      (resolve_venue_address (some "Microsoft India Office")
        (some "One Microsoft, Outer Ring Road, Devarabeesanahalli")
        (some "Bangalore")) = .medium := by decide

example :
    address_confidence_of
      (resolve_venue_address (some "Learn Data Science Workshop")
        (some "Bangalore") (some "Bangalore")) = .low := by decide

/-! ## Records -/

/-- A source-specific, loosely-typed scraped record (collector output):
free-text venue name, address fragment, time strings, city, and a
source-scoped identifier. -/
structure RawRecord where
  source : String
  source_id : String
  event_url : Option String
  event_name : Option String
  start_date : Option String
  start_time : Option String
  end_date : Option String
  end_time : Option String
  venue_name : Option String
  venue_address : Option String
  organizer_name : Option String
  categories : Option String
  description : Option String
  ticket_price : Option String
  ticket_url : Option String
  city : Option String
  last_updated : Nat
deriving DecidableEq

/-- A normalized (and, after consolidation, master) event record: canonical
times, a resolved venue/address string with attached confidence, and the
`event_key`/`event_url` dedup keys. -/
structure NormalizedRecord where
  event_key : String
  event_url : String
  source : String
  event_name : Option String
  start_date : Option String
  start_time : Option String
  end_date : Option String
  end_time : Option String
  venue_name : Option String
  venue_address : Option String
  organizer_name : Option String
  categories : Option String
  description : Option String
  ticket_price : Option String
  ticket_url : Option String
  city : Option String
  resolved_venue_address : String
  address_confidence : Confidence
  last_updated : Nat
deriving DecidableEq

/-- Modelled from the spec: the Normalizer's per-record transformation in
`output_enhancer.py` — derive `event_key` as `source:source_id`, normalize
the time fields, resolve the venue/address string, and score confidence.
It is a total function: bad data degrades to `none`/`low`, never an error. -/
def normalizeRecord (raw : RawRecord) : NormalizedRecord :=
  let resolved :=
    resolve_venue_address raw.venue_name raw.venue_address raw.city
  { event_key := raw.source ++ ":" ++ raw.source_id
    event_url := raw.event_url.getD ""
    source := raw.source
    event_name := raw.event_name
    start_date := raw.start_date
    start_time := raw.start_time.bind normalize_time
    end_date := raw.end_date
    end_time := raw.end_time.bind normalize_time
    venue_name := raw.venue_name
    venue_address := raw.venue_address
    organizer_name := raw.organizer_name
    categories := raw.categories
    description := raw.description
    ticket_price := raw.ticket_price
    ticket_url := raw.ticket_url
    city := raw.city
    resolved_venue_address := resolved
    address_confidence := address_confidence_of resolved
    last_updated := raw.last_updated }

/-! ## Consolidator: field-precedence merge

Modelled from the spec: `consolidate_events.py` is absent from the snapshot.
The spec's merge policy when two records share a dedup anchor: per field,
prefer the non-null value; when both are non-null and conflicting, prefer
the higher `address_confidence` record for address-derived fields, or the
record with more non-null fields as a general tie-break; if still tied,
prefer the most recent `last_updated`. -/

/-- Number of non-null optional fields of a record (completeness measure). -/
def nonNullCount (r : NormalizedRecord) : Nat :=
  [r.event_name.isSome, r.start_date.isSome, r.start_time.isSome,
   r.end_date.isSome, r.end_time.isSome, r.venue_name.isSome,
   r.venue_address.isSome, r.organizer_name.isSome, r.categories.isSome,
   r.description.isSome, r.ticket_price.isSome, r.ticket_url.isSome,
   r.city.isSome].count true

/-- General conflict tie-break: `true` when the first record wins — more
non-null fields, then the more recent `last_updated`. -/
def generalWinnerIsFirst (a b : NormalizedRecord) : Bool :=
  if nonNullCount b < nonNullCount a then true
  else if nonNullCount a < nonNullCount b then false
  else b.last_updated ≤ a.last_updated

/-- Address-field conflict tie-break: `true` when the first record wins —
higher `address_confidence`, then the general tie-break. -/
def addressWinnerIsFirst (a b : NormalizedRecord) : Bool :=
  if confRank b.address_confidence < confRank a.address_confidence then true
  else if confRank a.address_confidence < confRank b.address_confidence then false
  else generalWinnerIsFirst a b

/-- Merge a single optional field: prefer the non-null side; on a conflict
take the winning record's value `w`. -/
def mergeField (x y w : Option α) : Option α :=
  match x, y with
  | some v, none => some v
  | none, some v => some v
  | none, none => none
  | some _, some _ => w

/-- Modelled from the spec: the Consolidator's field-by-field merge of two
records sharing a dedup anchor, with the documented ordered precedence. -/
def mergeRec (a b : NormalizedRecord) : NormalizedRecord :=
  let g := if generalWinnerIsFirst a b then a else b
  let ad := if addressWinnerIsFirst a b then a else b
  { event_key := g.event_key
    event_url := g.event_url
    source := g.source
    event_name := mergeField a.event_name b.event_name g.event_name
    start_date := mergeField a.start_date b.start_date g.start_date
    start_time := mergeField a.start_time b.start_time g.start_time
    end_date := mergeField a.end_date b.end_date g.end_date
    end_time := mergeField a.end_time b.end_time g.end_time
    venue_name := mergeField a.venue_name b.venue_name ad.venue_name
    venue_address := mergeField a.venue_address b.venue_address ad.venue_address
    organizer_name := mergeField a.organizer_name b.organizer_name g.organizer_name
    categories := mergeField a.categories b.categories g.categories
    description := mergeField a.description b.description g.description
    ticket_price := mergeField a.ticket_price b.ticket_price g.ticket_price
    ticket_url := mergeField a.ticket_url b.ticket_url g.ticket_url
    city := mergeField a.city b.city g.city
    resolved_venue_address := ad.resolved_venue_address
    address_confidence := ad.address_confidence
    last_updated := max a.last_updated b.last_updated }

/-! ## Consolidator: dedup -/

/-- Insert `x` into an accumulator, merging it into the first record that
shares its key, else appending it. -/
def insMerge (m : α → α → α) (k : α → κ) [DecidableEq κ] (x : α) :
    List α → List α
  | [] => [x]
  | y :: ys => if k y = k x then m y x :: ys else y :: insMerge m k x ys

/-- Collapse a whole list by the key `k`, merging key-sharing records. -/
def mergeAll (m : α → α → α) (k : α → κ) [DecidableEq κ] (l : List α) :
    List α :=
  l.foldl (fun acc x => insMerge m k x acc) []

/-- Modelled from the spec: `consolidate_events.py` — collapse same-source
duplicates on `event_key`, then use `event_url` as the final global dedup
anchor. -/
def consolidate (l : List NormalizedRecord) : List NormalizedRecord :=
  mergeAll mergeRec (fun r => r.event_url)
    (mergeAll mergeRec (fun r => r.event_key) l)

/-! ## Loader

Modelled from the spec: `load_to_supabase.py` is absent from the snapshot.
The Loader geocodes each MasterRecord's resolved address through an external
collaborator and upserts the result into a store whose uniqueness key is
`url`: an existing row is updated in place, a fresh `url` is inserted.
Permanent geocoding failures and ineligible records (null `name`) are
skipped and counted; store-write failures are counted as failed; the Loader
returns a `{inserted, updated, skipped, failed}` summary instead of raising. -/

/-- A geocoded coordinate pair (micro-degree integers in this model). -/
abbrev Coord := Int × Int

/-- A persisted row: the uniqueness key `url` plus all non-key columns,
which are determined by the loaded record and its geocode. -/
structure StoredRow where
  url : String
  payload : NormalizedRecord × Coord
deriving DecidableEq

/-- Rewrite the non-key columns of every row holding the key `u`. -/
def setFields (s : List StoredRow) (u : String) (pay : NormalizedRecord × Coord) :
    List StoredRow :=
  s.map (fun row => if row.url = u then { url := row.url, payload := pay } else row)

/-- Does the store hold a row with the key `u`? -/
def hasUrl (s : List StoredRow) (u : String) : Bool :=
  s.any (fun row => row.url = u)

/-- The first (with the uniqueness constraint: the only) row keyed `u`. -/
def rowAt (s : List StoredRow) (u : String) : Option StoredRow :=
  s.find? (fun row => row.url = u)

/-- Modelled from the spec: the Loader's idempotent upsert keyed by `url` —
update the existing row's non-key fields when the key exists, insert
otherwise. -/
def upsert (s : List StoredRow) (r : NormalizedRecord) (c : Coord) :
    List StoredRow :=
  if hasUrl s r.event_url then
    setFields s r.event_url (r, c)
  else s ++ [{ url := r.event_url, payload := (r, c) }]

/-- The Loader's run summary. -/
structure LoadSummary where
  inserted : Nat
  updated : Nat
  skipped : Nat
  failed : Nat
deriving DecidableEq

/-- Does the Loader write this record, given the geocoding collaborator `g`
(`none` = permanent geocoding failure) and the store-write failure oracle
`w`? A record is written when it is eligible (non-null name), geocodes, and
the write does not fail. -/
def willWrite (g : String → Option Coord) (w : NormalizedRecord → Bool)
    (r : NormalizedRecord) : Bool :=
  r.event_name.isSome && (g r.resolved_venue_address).isSome && !(w r)

/-- One Loader step: skip ineligible records and permanent geocoding
failures, count store-write failures, otherwise upsert and count it as an
insert or an update. -/
def loadStep (g : String → Option Coord) (w : NormalizedRecord → Bool)
    (acc : List StoredRow × LoadSummary) (r : NormalizedRecord) :
    List StoredRow × LoadSummary :=
  if r.event_name.isNone then
    (acc.1, { acc.2 with skipped := acc.2.skipped + 1 })
  else
    match g r.resolved_venue_address with
    | none => (acc.1, { acc.2 with skipped := acc.2.skipped + 1 })
    | some c =>
      if w r then (acc.1, { acc.2 with failed := acc.2.failed + 1 })
      else if hasUrl acc.1 r.event_url then
        (upsert acc.1 r c, { acc.2 with updated := acc.2.updated + 1 })
      else
        (upsert acc.1 r c, { acc.2 with inserted := acc.2.inserted + 1 })

/-- Modelled from the spec: `load_to_supabase.py`'s batch load — process
every consolidated record, never aborting on a single failure, and return
the final store with the run summary. -/
def load_to_store (g : String → Option Coord) (w : NormalizedRecord → Bool)
    (s : List StoredRow) (ms : List NormalizedRecord) :
    List StoredRow × LoadSummary :=
  ms.foldl (loadStep g w) (s, ⟨0, 0, 0, 0⟩)

/-- The coordinate the Loader stores for a record that geocodes. -/
def coordOf (g : String → Option Coord) (r : NormalizedRecord) : Coord :=
  (g r.resolved_venue_address).getD (0, 0)

/-- Store evolution of the Loader, ignoring the counters. -/
def loadStore (g : String → Option Coord) (w : NormalizedRecord → Bool)
    (s : List StoredRow) (ms : List NormalizedRecord) : List StoredRow :=
  ms.foldl
    (fun t r => if willWrite g w r then upsert t r (coordOf g r) else t) s

/-- Modelled from the spec: the full pipeline — normalize each raw record,
consolidate across sources, and load into the store. -/
def runPipeline (g : String → Option Coord) (w : NormalizedRecord → Bool)
    (s : List StoredRow) (raws : List RawRecord) :
    List StoredRow × LoadSummary :=
  load_to_store g w s (consolidate (raws.map normalizeRecord))

/-! ## Frontend: `fetchEventDetails` (MapStateProvider.jsx / MapComponent.jsx)

The cache is the component's `eventDetailsCache` object, embedded as an
association list; the network is a collaborator returning `none` when the
response is not ok or the fetch throws. The Boolean in the result records
whether a network request was issued. -/

section Frontend

variable {Details : Type}

/-- `fetchEventDetails` from `MapStateProvider.jsx`: return the cached
details when present (no request); otherwise fetch — on success cache and
return the data, on error return `null` leaving the cache unchanged. -/
def fetchEventDetails (network : String → Option Details)
    (cache : List (String × Details)) (eventId : String) :
    Option Details × List (String × Details) × Bool :=
  match cache.lookup eventId with
  | some d => (some d, cache, false)
  | none =>
    match network eventId with
    | some data => (some data, (eventId, data) :: cache, true)
    | none => (none, cache, true)

end Frontend

/-! ## Frontend: `FilterPanel.jsx` distance clamping -/

/-- Consume the optional sign of a JavaScript number literal. -/
def parseSign : List Char → Int × List Char
  | '-' :: t => (-1, t)
  | '+' :: t => (1, t)
  | t => (1, t)

/-- The scale contributed by an exponent tail: a numerator factor for a
positive exponent, a denominator factor for a negative one. -/
def parseExpTail (t : List Char) : Nat × Nat :=
  match t with
  | '-' :: u =>
    if (takeDigits u).1.isEmpty then (1, 1)
    else (1, 10 ^ natOfDigits (takeDigits u).1)
  | '+' :: u =>
    if (takeDigits u).1.isEmpty then (1, 1)
    else (10 ^ natOfDigits (takeDigits u).1, 1)
  | u =>
    if (takeDigits u).1.isEmpty then (1, 1)
    else (10 ^ natOfDigits (takeDigits u).1, 1)

/-- Recognize an `e`/`E` exponent marker after the significand. -/
def parseExpScale : List Char → Nat × Nat
  | 'e' :: t => parseExpTail t
  | 'E' :: t => parseExpTail t
  | _ => (1, 1)

/-- The integer digits of the significand. -/
def intDigitsOf (l1 : List Char) : List Char := (takeDigits l1).1

/-- The fractional digits of the significand. -/
def fracDigitsOf (l1 : List Char) : List Char :=
  match (takeDigits l1).2 with
  | '.' :: t => (takeDigits t).1
  | _ => []

/-- What remains after the significand. -/
def restOf (l1 : List Char) : List Char :=
  match (takeDigits l1).2 with
  | '.' :: t => (takeDigits t).2
  | r => r

/-- Assemble the parsed number; no digits at all means `NaN`. -/
def buildFloat (sgn : Int) (intDigits fracDigits l3 : List Char) :
    Option (Int × Nat) :=
  if intDigits.isEmpty && fracDigits.isEmpty then none
  else
    some (sgn * ((natOfDigits intDigits * 10 ^ fracDigits.length +
        natOfDigits fracDigits : Nat) : Int) * ((parseExpScale l3).1 : Int),
      10 ^ fracDigits.length * (parseExpScale l3).2)

/-- Numeric prefix parser modelling JavaScript `parseFloat`: optional
leading whitespace and sign, then a decimal significand with optional
fractional digits and optional exponent; `none` models `NaN`. The exact
value is returned as a numerator/denominator pair. -/
def parseFloat (s : String) : Option (Int × Nat) :=
  buildFloat (parseSign (dropSpaces s.data)).1
    (intDigitsOf (parseSign (dropSpaces s.data)).2)
    (fracDigitsOf (parseSign (dropSpaces s.data)).2)
    (restOf (parseSign (dropSpaces s.data)).2)

/-- The exact rational value of a parsed number. -/
def ratOf (p : Int × Nat) : ℚ := (p.1 : ℚ) / (p.2 : ℚ)

/-- JavaScript `numValue > k` on a parsed number (denominator positive). -/
def floatGtNat (p : Int × Nat) (k : Nat) : Bool := decide ((k : Int) * p.2 < p.1)

/-- JavaScript `numValue < 0` on a parsed number (denominator positive). -/
def floatNeg (p : Int × Nat) : Bool := decide (p.1 < 0)

/-- The filter fields held in `FilterPanel.jsx` component state. -/
structure Filters where
  search_query : String
  max_distance_km : String
  start_date : String
  end_date : String
  venue : String
  organizer : String
  sort_by : String
deriving DecidableEq

/-- The `defaultFilters` object of `FilterPanel.jsx`. -/
def defaultFilters : Filters :=
  ⟨"", "", "", "", "", "", "distance"⟩

/-- Write one named filter field (the known field names of the panel). -/
def setFilterField (f : Filters) (field value : String) : Filters :=
  if field = "search_query" then { f with search_query := value }
  else if field = "max_distance_km" then { f with max_distance_km := value }
  else if field = "start_date" then { f with start_date := value }
  else if field = "end_date" then { f with end_date := value }
  else if field = "venue" then { f with venue := value }
  else if field = "organizer" then { f with organizer := value }
  else if field = "sort_by" then { f with sort_by := value }
  else f

/-- `handleInputChange` from `FilterPanel.jsx`: for a non-empty
`max_distance_km` value, clamp a parsed value above 80 to `"80"` and below
0 to `"0"` (an unparseable value compares false both ways and is stored
unchanged), then store the value in component state. The clamp itself: -/
def clampDistance (value : String) : String :=
  match parseFloat value with
  | some n => if floatGtNat n 80 then "80" else if floatNeg n then "0" else value
  | none => value

/-- `handleInputChange` from `FilterPanel.jsx`: clamp a non-empty
`max_distance_km` value and store it in component state. -/
def handleInputChange (field value : String) (f : Filters) : Filters :=
  setFilterField f field
    (if field = "max_distance_km" ∧ value ≠ "" then clampDistance value
     else value)

/-- The `max_distance_km` component of the payload built by
`handleApplyFilters`: an empty string is deleted by the empty-field sweep,
an unparseable one by the `Number.isNaN` check; otherwise the parsed number
is sent. -/
def appliedMaxDistance (f : Filters) : Option (Int × Nat) :=
  if f.max_distance_km = "" then none
  else parseFloat f.max_distance_km

example : parseFloat "80" = some (80, 1) := by decide
example : parseFloat "0" = some (0, 1) := by decide
example : parseFloat "100.5" = some (1005, 10) := by decide
example : parseFloat "abc" = none := by decide
example :
    (handleInputChange "max_distance_km" "100" defaultFilters).max_distance_km
      = "80" := by decide
example :
    (handleInputChange "max_distance_km" "-3" defaultFilters).max_distance_km
      = "0" := by decide
example :
    (handleInputChange "max_distance_km" "12.5" defaultFilters).max_distance_km
      = "12.5" := by decide

/-! ## Lemmas about time normalization -/

theorem to24_bounds {h m : Nat} {mk : Option Bool} {p : Nat × Nat}
    (hp : to24 h m mk = some p) : p.1 < 24 ∧ p.2 < 60 := by
  unfold to24 at hp
  split at hp
  · exact absurd hp (by simp)
  · rename_i hm
    cases mk with
    | none =>
      simp only [] at hp
      split at hp
      · cases hp
        constructor <;> omega
      · exact absurd hp (by simp)
    | some isPm =>
      simp only [] at hp
      split at hp
      · rename_i hrange
        cases isPm with
        | true =>
          simp only [if_pos rfl] at hp
          cases hp
          constructor
          · split <;> omega
          · omega
        | false =>
          simp only [Bool.false_eq_true, if_neg] at hp
          cases hp
          constructor
          · split <;> omega
          · omega
      · exact absurd hp (by simp)

theorem finishTime_to24 {h m : Nat} {rest : List Char} {p : Nat × Nat}
    (hp : finishTime h m rest = some p) : ∃ mk, to24 h m mk = some p := by
  unfold finishTime at hp
  split at hp
  · split at hp
    · exact ⟨some false, hp⟩
    · exact absurd hp (by simp)
  · split at hp
    · exact ⟨some true, hp⟩
    · exact absurd hp (by simp)
  · exact ⟨none, hp⟩
  · exact absurd hp (by simp)

theorem parseMinutes_bounds {h : Nat} {md r3 : List Char}
    {p : Nat × Nat} (hp : parseMinutes h md r3 = some p) :
    p.1 < 24 ∧ p.2 < 60 := by
  unfold parseMinutes at hp
  split at hp
  · exact absurd hp (by simp)
  · obtain ⟨mk, hmk⟩ := finishTime_to24 hp
    exact to24_bounds hmk

theorem parseRest_bounds {h : Nat} {r1 : List Char} {p : Nat × Nat}
    (hp : parseRest h r1 = some p) : p.1 < 24 ∧ p.2 < 60 := by
  unfold parseRest at hp
  split at hp
  · exact parseMinutes_bounds hp
  · obtain ⟨mk, hmk⟩ := finishTime_to24 hp
    exact to24_bounds hmk

theorem parseTimeCore_bounds {l : List Char} {p : Nat × Nat}
    (hp : parseTimeCore l = some p) : p.1 < 24 ∧ p.2 < 60 := by
  unfold parseTimeCore parseAfterDigits at hp
  split at hp
  · exact absurd hp (by simp)
  · exact parseRest_bounds hp

/-- Claim C3: time normalization is total and deterministic, strips filler
suffixes, parses hour/minutes/am-pm case-insensitively, and returns a
zero-padded 24-hour `HH:MM` string; `"5 PM"` maps to `"17:00"`,
`"5:30 pm"` to `"17:30"`, `"9am"` to `"09:00"`, and unparseable input
(such as `"noon onwards"`) yields null rather than an error. -/
theorem normalize_time_spec :
    normalize_time "5 PM" = some "17:00" ∧
    normalize_time "5:30 pm" = some "17:30" ∧
    normalize_time "9am" = some "09:00" ∧
    normalize_time "noon onwards" = none ∧
    ∀ s : String, (normalize_time s).elim True WellFormedHHMM := by
  refine ⟨by decide, by decide, by decide, by decide, ?_⟩
  intro s
  cases hp : parseTimeCore (stripFiller (trimChars (lowerChars s))) with
  | none =>
    have : normalize_time s = none := by
      unfold normalize_time
      rw [hp]
    rw [this]
    exact trivial
  | some p =>
    obtain ⟨h, m⟩ := p
    have hb := parseTimeCore_bounds hp
    have : normalize_time s = some (formatHHMM h m) := by
      unfold normalize_time
      rw [hp]
    rw [this]
    exact ⟨h, m, hb.1, hb.2, rfl⟩

/-! ## The Normalizer's confidence invariant -/

/-- Claim C2: for every raw record — even one with all fields missing or
malformed — the Normalizer returns a record whose `address_confidence` is
exactly one of high, medium, low (never null, never an error; totality is
inherent in the function type), and absence of venue/address information
yields `low`. -/
theorem normalizeRecord_confidence_spec :
    (∀ raw : RawRecord,
      (normalizeRecord raw).address_confidence = .high ∨
      (normalizeRecord raw).address_confidence = .medium ∨
      (normalizeRecord raw).address_confidence = .low) ∧
    (∀ raw : RawRecord,
      raw.venue_name = none → raw.venue_address = none → raw.city = none →
      (normalizeRecord raw).address_confidence = .low) ∧
    ∀ raw : RawRecord,
      raw.venue_name = none → raw.venue_address = none →
      raw.city = some "Bangalore" →
      (normalizeRecord raw).address_confidence = .low := by
  refine ⟨?_, ?_, ?_⟩
  · intro raw
    cases hc : (normalizeRecord raw).address_confidence with
    | high => exact Or.inl rfl
    | medium => exact Or.inr (Or.inl rfl)
    | low => exact Or.inr (Or.inr rfl)
  · intro raw h1 h2 h3
    show address_confidence_of
      (resolve_venue_address raw.venue_name raw.venue_address raw.city) = .low
    rw [h1, h2, h3]
    decide
  · intro raw h1 h2 h3
    show address_confidence_of
      (resolve_venue_address raw.venue_name raw.venue_address raw.city) = .low
    rw [h1, h2, h3]
    decide

/-- A raw record with every optional field missing. -/
def rawEmpty : RawRecord :=
  ⟨"allevents.in", "0", none, none, none, none, none, none, none, none,
   none, none, none, none, none, none, 0⟩

/-- Witness for C2 at a concrete record with all fields missing. -/
theorem normalizeRecord_confidence_spec_witness :
    (normalizeRecord rawEmpty).address_confidence = .low :=
  normalizeRecord_confidence_spec.2.1 rawEmpty rfl rfl rfl

/-! ## Reflection of the Boolean scanners -/

theorem isPrefixOfB_iff (a b : List Char) : isPrefixOfB a b = true ↔ a <+: b := by
  induction a generalizing b with
  | nil => simp [isPrefixOfB]
  | cons x xs ih =>
    cases b with
    | nil => simp [isPrefixOfB, List.prefix_nil]
    | cons y ys =>
      rw [isPrefixOfB, List.cons_prefix_cons, Bool.and_eq_true, beq_iff_eq, ih]

theorem containsSeq_iff (needle hay : List Char) :
    containsSeq needle hay = true ↔ needle <:+: hay := by
  induction hay with
  | nil => rw [containsSeq, isPrefixOfB_iff, List.prefix_nil, List.infix_nil]
  | cons c t ih =>
    rw [containsSeq, Bool.or_eq_true, isPrefixOfB_iff, ih, List.infix_cons_iff]

theorem placeholderContains_iff (x : List Char) :
    placeholderLexicon.contains x = true ↔ x ∈ placeholderLexicon :=
  List.elem_iff

/-- The spec-side description of venue rejection: the placeholder lexicon,
over-long strings, or marketing jargon occurring in the canonical key. -/
def PlaceholderSpec (v : String) : Prop :=
  normKey v ∈ placeholderLexicon ∨ 80 < (normKey v).length ∨
    ∃ w ∈ jargonWords, w <:+: normKey v

/-- Claim C5: a raw venue-name string is classified a placeholder exactly
when it matches the placeholder lexicon, exceeds 80 characters, or contains
marketing/action jargon; and a rejected venue name is excluded from the
resolved venue/address string. -/
theorem is_placeholder_venue_spec :
    (∀ v : String, is_placeholder_venue v = true ↔ PlaceholderSpec v) ∧
    ∀ v address city, is_placeholder_venue v = true →
      resolve_venue_address (some v) address city =
        resolve_venue_address none address city := by
  constructor
  · intro v
    unfold is_placeholder_venue PlaceholderSpec
    rw [Bool.or_eq_true, Bool.or_eq_true, placeholderContains_iff,
      decide_eq_true_eq, List.any_eq_true]
    constructor
    · rintro ((h | h) | h)
      · exact Or.inl h
      · exact Or.inr (Or.inl h)
      · obtain ⟨w, hw, hc⟩ := h
        exact Or.inr (Or.inr ⟨w, hw, (containsSeq_iff w (normKey v)).1 hc⟩)
    · rintro (h | h | ⟨w, hw, hc⟩)
      · exact Or.inl (Or.inl h)
      · exact Or.inl (Or.inr h)
      · exact Or.inr ⟨w, hw, (containsSeq_iff w (normKey v)).2 hc⟩
  · intro v address city hv
    unfold resolve_venue_address candParts
    simp [hv]

/-- Witness for C5: the placeholder classifier fires on `"TBA"`, and the
venue is excluded from the resolved address. -/
theorem is_placeholder_venue_spec_witness :
    PlaceholderSpec "TBA" ∧
    resolve_venue_address (some "TBA") (some "MG Road") (some "Bangalore") =
      resolve_venue_address none (some "MG Road") (some "Bangalore") :=
  ⟨(is_placeholder_venue_spec.1 "TBA").1 (by decide),
   is_placeholder_venue_spec.2 "TBA" (some "MG Road") (some "Bangalore")
     (by decide)⟩

theorem hasDigitRun3_iff (l : List Char) :
    hasDigitRun3 l = true ↔
      ∃ a b c, (a.isDigit ∧ b.isDigit ∧ c.isDigit) ∧ [a, b, c] <:+: l := by
  induction l with
  | nil =>
    rw [show hasDigitRun3 [] = false from rfl]
    simp only [Bool.false_eq_true, false_iff]
    rintro ⟨a, b, c, _, hinf⟩
    have := hinf.length_le
    simp at this
  | cons x t ih =>
    cases t with
    | nil =>
      rw [show hasDigitRun3 [x] = false from rfl]
      simp only [Bool.false_eq_true, false_iff]
      rintro ⟨a, b, c, _, hinf⟩
      have := hinf.length_le
      simp at this
    | cons y u =>
      cases u with
      | nil =>
        rw [show hasDigitRun3 [x, y] = false from rfl]
        simp only [Bool.false_eq_true, false_iff]
        rintro ⟨a, b, c, _, hinf⟩
        have := hinf.length_le
        simp at this
      | cons z v =>
        rw [hasDigitRun3, Bool.or_eq_true, ih]
        constructor
        · rintro (h | ⟨a, b, c, hd, hinf⟩)
          · rw [Bool.and_eq_true, Bool.and_eq_true] at h
            exact ⟨x, y, z, ⟨h.1.1, h.1.2, h.2⟩, ⟨[], v, rfl⟩⟩
          · exact ⟨a, b, c, hd, (List.infix_cons_iff).2 (Or.inr hinf)⟩
        · rintro ⟨a, b, c, ⟨ha, hb, hc⟩, hinf⟩
          rcases (List.infix_cons_iff).1 hinf with hpre | htail
          · rw [List.cons_prefix_cons] at hpre
            obtain ⟨rfl, hpre⟩ := hpre
            rw [List.cons_prefix_cons] at hpre
            obtain ⟨rfl, hpre⟩ := hpre
            rw [List.cons_prefix_cons] at hpre
            obtain ⟨rfl, _⟩ := hpre
            exact Or.inl (by rw [ha, hb, hc]; rfl)
          · exact Or.inr ⟨a, b, c, ⟨ha, hb, hc⟩, htail⟩

theorem postalAt_iff (l : List Char) :
    postalAt l = true ↔
      ∃ d1 d2, (d1.isDigit ∧ d2.isDigit) ∧
        ['5', '6', '0', d1, d2] <+: l := by
  unfold postalAt
  split
  next d1 d2 rest =>
    rw [Bool.and_eq_true]
    constructor
    · rintro ⟨h1, h2⟩
      exact ⟨d1, d2, ⟨h1, h2⟩, ⟨rest, rfl⟩⟩
    · rintro ⟨e1, e2, ⟨h1, h2⟩, hpre⟩
      rw [List.cons_prefix_cons] at hpre
      obtain ⟨-, hpre⟩ := hpre
      rw [List.cons_prefix_cons] at hpre
      obtain ⟨-, hpre⟩ := hpre
      rw [List.cons_prefix_cons] at hpre
      obtain ⟨-, hpre⟩ := hpre
      rw [List.cons_prefix_cons] at hpre
      obtain ⟨rfl, hpre⟩ := hpre
      rw [List.cons_prefix_cons] at hpre
      obtain ⟨rfl, -⟩ := hpre
      exact ⟨h1, h2⟩
  next hno =>
    simp only [Bool.false_eq_true, false_iff]
    rintro ⟨d1, d2, -, ⟨rest, hrest⟩⟩
    exact hno d1 d2 rest hrest.symm

theorem hasPostalCode_iff (l : List Char) :
    hasPostalCode l = true ↔
      ∃ d1 d2, (d1.isDigit ∧ d2.isDigit) ∧
        ['5', '6', '0', d1, d2] <:+: l := by
  induction l with
  | nil =>
    rw [show hasPostalCode [] = false from rfl]
    simp only [Bool.false_eq_true, false_iff]
    rintro ⟨d1, d2, -, hinf⟩
    have := hinf.length_le
    simp at this
  | cons c t ih =>
    rw [hasPostalCode, Bool.or_eq_true, ih, postalAt_iff]
    constructor
    · rintro (⟨d1, d2, hd, hpre⟩ | ⟨d1, d2, hd, hinf⟩)
      · exact ⟨d1, d2, hd, hpre.isInfix⟩
      · exact ⟨d1, d2, hd, (List.infix_cons_iff).2 (Or.inr hinf)⟩
    · rintro ⟨d1, d2, hd, hinf⟩
      rcases (List.infix_cons_iff).1 hinf with hpre | htail
      · exact Or.inl ⟨d1, d2, hd, hpre⟩
      · exact Or.inr ⟨d1, d2, hd, htail⟩

/-- The spec-side strong address signal: a run of 3+ consecutive digits
(street-number pattern) or the local postal-code pattern. -/
def StrongSignalSpec (l : List Char) : Prop :=
  (∃ a b c, (a.isDigit ∧ b.isDigit ∧ c.isDigit) ∧ [a, b, c] <:+: l) ∨
    ∃ d1 d2, (d1.isDigit ∧ d2.isDigit) ∧ ['5', '6', '0', d1, d2] <:+: l

/-- The spec-side weak address signal: one of the fixed location nouns. -/
def NounSignalSpec (l : List Char) : Prop := ∃ w ∈ locationNouns, w <:+: l

theorem hasStrongSignal_iff (l : List Char) :
    hasStrongSignal l = true ↔ StrongSignalSpec l := by
  rw [hasStrongSignal, Bool.or_eq_true, hasDigitRun3_iff, hasPostalCode_iff]
  exact Iff.rfl

theorem hasLocationNoun_iff (l : List Char) :
    hasLocationNoun l = true ↔ NounSignalSpec l := by
  rw [hasLocationNoun, List.any_eq_true]
  constructor
  · rintro ⟨w, hw, hc⟩
    exact ⟨w, hw, (containsSeq_iff w l).1 hc⟩
  · rintro ⟨w, hw, hc⟩
    exact ⟨w, hw, (containsSeq_iff w l).2 hc⟩

/-- Counterexample to claim C4 as stated: on the spec's own example —
venue `"Microsoft India Office"`, address
`"One Microsoft, Outer Ring Road, Devarabeesanahalli"`, city
`"Bangalore"` — the composed string contains the locational noun `road`
but no postal code and no 3+-digit street number, so the documented
scoring rule yields `medium`, not the claimed `high`. -/
theorem address_confidence_microsoft_cex :
    address_confidence_of
        (resolve_venue_address (some "Microsoft India Office")
          (some "One Microsoft, Outer Ring Road, Devarabeesanahalli")
          (some "Bangalore")) ≠ .high ∧
    address_confidence_of
        (resolve_venue_address (some "Microsoft India Office")
          (some "One Microsoft, Outer Ring Road, Devarabeesanahalli")
          (some "Bangalore")) = .medium := by
  constructor
  · decide
  · decide

/-- Claim C4 (amended): confidence is `high` exactly when the composed
string has a strong signal (postal-code pattern or 3+-digit street
number), `medium` exactly when it has no strong signal but a locational
noun from the fixed vocabulary, and `low` otherwise; on the Microsoft
example the rule yields `medium` (not `high` — the address has a noun but
no digit/postal signal), and the Learn-workshop example yields `low`. -/
theorem address_confidence_of_spec :
    (∀ s : String,
      (address_confidence_of s = .high ↔ StrongSignalSpec (lowerChars s)) ∧
      (address_confidence_of s = .medium ↔
        ¬StrongSignalSpec (lowerChars s) ∧ NounSignalSpec (lowerChars s)) ∧
      (address_confidence_of s = .low ↔
        ¬StrongSignalSpec (lowerChars s) ∧ ¬NounSignalSpec (lowerChars s))) ∧
    address_confidence_of
        (resolve_venue_address (some "Microsoft India Office")
          (some "One Microsoft, Outer Ring Road, Devarabeesanahalli")
          (some "Bangalore")) = .medium ∧
    address_confidence_of
        (resolve_venue_address (some "Learn Data Science Workshop")
          (some "Bangalore") (some "Bangalore")) = .low := by
  refine ⟨?_, by decide, by decide⟩
  intro s
  unfold address_confidence_of
  by_cases hs : hasStrongSignal (lowerChars s) = true
  · rw [if_pos hs]
    rw [hasStrongSignal_iff] at hs
    refine ⟨⟨fun _ => hs, fun _ => rfl⟩, ⟨fun h => absurd h (by decide), ?_⟩,
      ⟨fun h => absurd h (by decide), ?_⟩⟩
    · rintro ⟨hns, -⟩
      exact absurd hs hns
    · rintro ⟨hns, -⟩
      exact absurd hs hns
  · rw [if_neg hs]
    rw [hasStrongSignal_iff] at hs
    by_cases hn : hasLocationNoun (lowerChars s) = true
    · rw [if_pos hn]
      rw [hasLocationNoun_iff] at hn
      exact ⟨⟨fun h => absurd h (by decide), fun h => absurd h hs⟩,
        ⟨fun _ => ⟨hs, hn⟩, fun _ => rfl⟩,
        ⟨fun h => absurd h (by decide), fun h => absurd hn h.2⟩⟩
    · rw [if_neg hn]
      rw [hasLocationNoun_iff] at hn
      exact ⟨⟨fun h => absurd h (by decide), fun h => absurd h hs⟩,
        ⟨fun h => absurd h (by decide), fun h => absurd h.2 hn⟩,
        ⟨fun _ => ⟨hs, hn⟩, fun _ => rfl⟩⟩

/-- Witness for the amended C4: `"MG Road 560034"` carries a strong signal
and scores `high`. -/
theorem address_confidence_of_spec_witness :
    address_confidence_of "MG Road 560034" = .high :=
  ((address_confidence_of_spec.1 "MG Road 560034").1).2
    ((hasStrongSignal_iff (lowerChars "MG Road 560034")).1 (by decide))

/-! ## Generic dedup lemmas for `insMerge`/`mergeAll` -/

section MergeLemmas

variable {α κ β : Type} [DecidableEq κ] (m : α → α → α) (k : α → κ)

theorem insMerge_k_vals (hm : ∀ a b, k a = k b → k (m a b) = k a)
    (x : α) (acc : List α) :
    ∀ z ∈ insMerge m k x acc, k z = k x ∨ k z ∈ acc.map k := by
  induction acc with
  | nil =>
    intro z hz
    rw [insMerge, List.mem_singleton] at hz
    exact Or.inl (hz ▸ rfl)
  | cons y ys ih =>
    intro z hz
    rw [insMerge] at hz
    split at hz
    · rename_i hk
      rcases List.mem_cons.1 hz with rfl | hz
      · exact Or.inr (List.mem_cons.2 (Or.inl (hm y x hk)))
      · exact Or.inr (List.mem_cons.2 (Or.inr (List.mem_map_of_mem k hz)))
    · rcases List.mem_cons.1 hz with rfl | hz
      · exact Or.inr (List.mem_cons.2 (Or.inl rfl))
      · rcases ih z hz with h | h
        · exact Or.inl h
        · exact Or.inr (List.mem_cons.2 (Or.inr h))

theorem insMerge_map_k_mem (hm : ∀ a b, k a = k b → k (m a b) = k a)
    (x : α) (acc : List α) (h : k x ∈ acc.map k) :
    (insMerge m k x acc).map k = acc.map k := by
  induction acc with
  | nil => simp at h
  | cons y ys ih =>
    rw [insMerge]
    split
    · rename_i hk
      simp [hm y x hk]
    · rename_i hk
      rw [List.map_cons] at h
      rcases List.mem_cons.1 h with h' | h'
      · exact absurd h'.symm hk
      · simp [ih h']

theorem insMerge_map_k_new (x : α) (acc : List α) (h : k x ∉ acc.map k) :
    (insMerge m k x acc).map k = acc.map k ++ [k x] := by
  induction acc with
  | nil => rfl
  | cons y ys ih =>
    rw [insMerge]
    split
    · rename_i hk
      exact absurd (by simp [hk]) h
    · have : k x ∉ ys.map k := fun hmem => h (by simp [hmem])
      simp [ih this]

theorem nodup_insMerge (hm : ∀ a b, k a = k b → k (m a b) = k a)
    (x : α) (acc : List α) (hnd : (acc.map k).Nodup) :
    ((insMerge m k x acc).map k).Nodup := by
  by_cases h : k x ∈ acc.map k
  · rw [insMerge_map_k_mem m k hm x acc h]
    exact hnd
  · rw [insMerge_map_k_new m k x acc h]
    simp [List.nodup_append, hnd, List.disjoint_singleton, h]

theorem nodup_foldl_insMerge (hm : ∀ a b, k a = k b → k (m a b) = k a) :
    ∀ (l acc : List α), (acc.map k).Nodup →
      ((l.foldl (fun a x => insMerge m k x a) acc).map k).Nodup := by
  intro l
  induction l with
  | nil => intro acc h; exact h
  | cons x t ih =>
    intro acc h
    exact ih (insMerge m k x acc) (nodup_insMerge m k hm x acc h)

theorem nodup_mergeAll (hm : ∀ a b, k a = k b → k (m a b) = k a)
    (l : List α) : ((mergeAll m k l).map k).Nodup :=
  nodup_foldl_insMerge m k hm l [] List.nodup_nil

theorem mem_map_k_insMerge (hm : ∀ a b, k a = k b → k (m a b) = k a)
    (x : α) (acc : List α) :
    k x ∈ (insMerge m k x acc).map k ∧
      ∀ u ∈ acc.map k, u ∈ (insMerge m k x acc).map k := by
  by_cases h : k x ∈ acc.map k
  · rw [insMerge_map_k_mem m k hm x acc h]
    exact ⟨h, fun u hu => hu⟩
  · rw [insMerge_map_k_new m k x acc h]
    exact ⟨by simp, fun u hu => by simp [hu]⟩

theorem mergeAll_k_complete_aux (hm : ∀ a b, k a = k b → k (m a b) = k a) :
    ∀ (l acc : List α) (u : κ),
      (u ∈ acc.map k ∨ ∃ r ∈ l, k r = u) →
      u ∈ (l.foldl (fun a x => insMerge m k x a) acc).map k := by
  intro l
  induction l with
  | nil =>
    intro acc u h
    rcases h with h | ⟨r, hr, -⟩
    · exact h
    · simp at hr
  | cons x t ih =>
    intro acc u h
    rw [List.foldl_cons]
    apply ih (insMerge m k x acc) u
    obtain ⟨hself, hkeep⟩ := mem_map_k_insMerge m k hm x acc
    rcases h with h | ⟨r, hr, hru⟩
    · exact Or.inl (hkeep u h)
    · rcases List.mem_cons.1 hr with rfl | hr
      · exact Or.inl (hru ▸ hself)
      · exact Or.inr ⟨r, hr, hru⟩

/-- Every input key survives into the collapsed output. -/
theorem mergeAll_k_complete (hm : ∀ a b, k a = k b → k (m a b) = k a)
    (l : List α) : ∀ r ∈ l, k r ∈ (mergeAll m k l).map k := by
  intro r hr
  exact mergeAll_k_complete_aux m k hm l [] (k r) (Or.inr ⟨r, hr, rfl⟩)

variable (f : α → β)

theorem insMerge_f_vals (hm2 : ∀ a b, k a = k b → f (m a b) = f a ∨ f (m a b) = f b)
    (x : α) (acc : List α) :
    ∀ z ∈ insMerge m k x acc, f z = f x ∨ f z ∈ acc.map f := by
  induction acc with
  | nil =>
    intro z hz
    rw [insMerge, List.mem_singleton] at hz
    exact Or.inl (hz ▸ rfl)
  | cons y ys ih =>
    intro z hz
    rw [insMerge] at hz
    split at hz
    · rename_i hk
      rcases List.mem_cons.1 hz with rfl | hz
      · rcases hm2 y x hk with h | h
        · exact Or.inr (List.mem_cons.2 (Or.inl h))
        · exact Or.inl h
      · exact Or.inr (List.mem_cons.2 (Or.inr (List.mem_map_of_mem f hz)))
    · rcases List.mem_cons.1 hz with rfl | hz
      · exact Or.inr (List.mem_cons.2 (Or.inl rfl))
      · rcases ih z hz with h | h
        · exact Or.inl h
        · exact Or.inr (List.mem_cons.2 (Or.inr h))

theorem insMerge_f_nodup
    (hm2 : ∀ a b, k a = k b → f (m a b) = f a ∨ f (m a b) = f b)
    (x : α) (acc rest : List α)
    (h : ((acc ++ x :: rest).map f).Nodup) :
    (((insMerge m k x acc) ++ rest).map f).Nodup := by
  induction acc with
  | nil =>
    rw [show insMerge m k x [] = [x] from rfl]
    simpa using h
  | cons y ys ih =>
    rw [List.cons_append, List.map_cons, List.nodup_cons] at h
    obtain ⟨hy, h2⟩ := h
    rw [insMerge]
    split
    · rename_i hk
      rw [List.cons_append, List.map_cons, List.nodup_cons]
      have hmid : ((ys ++ x :: rest).map f) = ys.map f ++ f x :: rest.map f := by
        simp
      rw [hmid, List.nodup_middle, List.nodup_cons] at h2
      obtain ⟨hx, h3⟩ := h2
      rw [← List.map_append] at h3
      constructor
      · rcases hm2 y x hk with hf | hf
        · rw [hf]
        -- the merged record's f-value is f y or f x, neither of which
        -- occurs among the remaining rows
          intro hmem
          apply hy
          have hsub : List.Sublist ((ys ++ rest).map f) ((ys ++ x :: rest).map f) :=
            ((List.sublist_cons_self x rest).append_left ys).map f
          exact hsub.mem hmem
        · rw [hf]
          rwa [← List.map_append] at hx
      · exact h3
    · rename_i hk
      rw [List.cons_append, List.map_cons, List.nodup_cons]
      refine ⟨?_, ih h2⟩
      intro hmem
      rw [List.map_append, List.mem_append] at hmem
      rcases hmem with hmem | hmem
      · obtain ⟨z, hz, hfz⟩ := List.mem_map.1 hmem
        rcases insMerge_f_vals m k f hm2 x ys z hz with hfx | hfy
        · apply hy
          rw [← hfz, hfx]
          simp
        · apply hy
          rw [hfz] at hfy
          have hsub : List.Sublist (ys.map f) ((ys ++ x :: rest).map f) := by
            rw [List.map_append]
            exact (ys.map f).sublist_append_left _
          exact hsub.mem hfy
      · apply hy
        have hsub : List.Sublist (rest.map f) ((ys ++ x :: rest).map f) := by
          rw [List.map_append, List.map_cons]
          exact ((rest.map f).sublist_cons_self (f x)).trans
            (List.sublist_append_right (ys.map f) (f x :: rest.map f))
        exact hsub.mem hmem

theorem mergeAll_f_nodup_aux
    (hm2 : ∀ a b, k a = k b → f (m a b) = f a ∨ f (m a b) = f b) :
    ∀ (l acc : List α), ((acc ++ l).map f).Nodup →
      ((l.foldl (fun a x => insMerge m k x a) acc).map f).Nodup := by
  intro l
  induction l with
  | nil =>
    intro acc h
    simpa using h
  | cons x t ih =>
    intro acc h
    rw [List.foldl_cons]
    exact ih (insMerge m k x acc) (insMerge_f_nodup m k f hm2 x acc t h)

/-- Collapsing on the key `k` preserves pairwise distinctness of any
secondary attribute `f` that the merge resolves to one of its sides. -/
theorem mergeAll_f_nodup
    (hm2 : ∀ a b, k a = k b → f (m a b) = f a ∨ f (m a b) = f b)
    (l : List α) (h : (l.map f).Nodup) :
    ((mergeAll m k l).map f).Nodup :=
  mergeAll_f_nodup_aux m k f hm2 l [] (by simpa using h)

end MergeLemmas

/-! ## The Consolidator's dedup invariant -/

theorem mergeRec_url_pres (a b : NormalizedRecord)
    (h : a.event_url = b.event_url) :
    (mergeRec a b).event_url = a.event_url := by
  show (if generalWinnerIsFirst a b then a else b).event_url = a.event_url
  split
  · rfl
  · exact h.symm

theorem mergeRec_key_pres (a b : NormalizedRecord)
    (h : a.event_key = b.event_key) :
    (mergeRec a b).event_key = a.event_key := by
  show (if generalWinnerIsFirst a b then a else b).event_key = a.event_key
  split
  · rfl
  · exact h.symm

theorem mergeRec_key_or (a b : NormalizedRecord) :
    (mergeRec a b).event_key = a.event_key ∨
      (mergeRec a b).event_key = b.event_key := by
  by_cases h : generalWinnerIsFirst a b = true
  · left
    show (if generalWinnerIsFirst a b then a else b).event_key = a.event_key
    rw [if_pos h]
  · right
    show (if generalWinnerIsFirst a b then a else b).event_key = b.event_key
    rw [if_neg h]

/-- Claim C6: the consolidated MasterSet holds exactly one surviving record
per distinct `event_url` and exactly one per distinct `event_key` (records
resolving to the same key collapse), and every input record's `event_key`
survives the key-collapse pass. -/
theorem consolidate_dedup_spec :
    ∀ l : List NormalizedRecord,
      ((consolidate l).map (fun r => r.event_url)).Nodup ∧
      ((consolidate l).map (fun r => r.event_key)).Nodup ∧
      ∀ r ∈ l, r.event_key ∈
        (mergeAll mergeRec (fun r => r.event_key) l).map
          (fun r => r.event_key) := by
  intro l
  refine ⟨?_, ?_, ?_⟩
  · exact nodup_mergeAll mergeRec (fun r => r.event_url)
      (fun a b h => mergeRec_url_pres a b h) _
  · exact mergeAll_f_nodup mergeRec (fun r => r.event_url)
      (fun r => r.event_key) (fun a b _ => mergeRec_key_or a b) _
      (nodup_mergeAll mergeRec (fun r => r.event_key)
        (fun a b h => mergeRec_key_pres a b h) l)
  · exact mergeAll_k_complete mergeRec (fun r => r.event_key)
      (fun a b h => mergeRec_key_pres a b h) l

/-- Two sample normalized records sharing an `event_key`. -/
def recA : NormalizedRecord :=
  ⟨"allevents.in:7", "https://allevents.in/e/7", "allevents.in",
   some "Expo", some "2026-02-01", some "10:00", none, none,
   some "BIEC", some "Tumkur Road", none, none, none, none, none,
   some "Bangalore", "BIEC, Tumkur Road, Bangalore", .medium, 5⟩

/-- A second record with the same key and fewer filled fields. -/
def recB : NormalizedRecord :=
  ⟨"allevents.in:7", "https://allevents.in/e/7", "allevents.in",
   some "Expo", none, none, none, none,
   none, none, none, none, some "A big expo.", none, none,
   none, "Bangalore", .low, 9⟩

/-- Witness for C6 at a concrete two-record input. -/
theorem consolidate_dedup_spec_witness :
    recA.event_key ∈
      (mergeAll mergeRec (fun r => r.event_key) [recA, recB]).map
        (fun r => r.event_key) :=
  (consolidate_dedup_spec [recA, recB]).2.2 recA (by simp)

/-! ## The Consolidator's merge precedence -/

theorem generalWinner_first_of_count (a b : NormalizedRecord)
    (h : nonNullCount b < nonNullCount a) : generalWinnerIsFirst a b = true := by
  unfold generalWinnerIsFirst
  rw [if_pos h]

theorem generalWinner_second_of_count (a b : NormalizedRecord)
    (h : nonNullCount a < nonNullCount b) : generalWinnerIsFirst a b = false := by
  unfold generalWinnerIsFirst
  rw [if_neg (by omega), if_pos h]

theorem generalWinner_first_of_time (a b : NormalizedRecord)
    (hc : nonNullCount a = nonNullCount b)
    (ht : b.last_updated ≤ a.last_updated) : generalWinnerIsFirst a b = true := by
  unfold generalWinnerIsFirst
  rw [if_neg (by omega), if_neg (by omega)]
  exact decide_eq_true ht

theorem generalWinner_second_of_time (a b : NormalizedRecord)
    (hc : nonNullCount a = nonNullCount b)
    (ht : a.last_updated < b.last_updated) : generalWinnerIsFirst a b = false := by
  unfold generalWinnerIsFirst
  rw [if_neg (by omega), if_neg (by omega)]
  exact decide_eq_false (by omega)

theorem addressWinner_first_of_conf (a b : NormalizedRecord)
    (h : confRank b.address_confidence < confRank a.address_confidence) :
    addressWinnerIsFirst a b = true := by
  unfold addressWinnerIsFirst
  rw [if_pos h]

theorem addressWinner_second_of_conf (a b : NormalizedRecord)
    (h : confRank a.address_confidence < confRank b.address_confidence) :
    addressWinnerIsFirst a b = false := by
  unfold addressWinnerIsFirst
  rw [if_neg (by omega), if_pos h]

theorem addressWinner_tie (a b : NormalizedRecord)
    (h : a.address_confidence = b.address_confidence) :
    addressWinnerIsFirst a b = generalWinnerIsFirst a b := by
  unfold addressWinnerIsFirst
  rw [h, if_neg (by omega), if_neg (by omega)]

theorem mergeRec_description_eq (a b : NormalizedRecord) :
    (mergeRec a b).description =
      mergeField a.description b.description
        (if generalWinnerIsFirst a b then a else b).description := rfl

theorem mergeRec_venue_address_eq (a b : NormalizedRecord) :
    (mergeRec a b).venue_address =
      mergeField a.venue_address b.venue_address
        (if addressWinnerIsFirst a b then a else b).venue_address := rfl

/-- Claim C7: the merge of two records sharing a dedup anchor follows the
ordered precedence — prefer the non-null value; on a non-null conflict
prefer the higher `address_confidence` side for address-derived fields and
the more complete record for general fields; and when still tied prefer the
more recent `last_updated`. Stated for a representative general field
(`description`) and address-derived field (`venue_address`). -/
theorem mergeRec_precedence_spec :
    ∀ a b : NormalizedRecord,
      (∀ v, a.description = some v → b.description = none →
        (mergeRec a b).description = some v) ∧
      (∀ v, a.description = none → b.description = some v →
        (mergeRec a b).description = some v) ∧
      (∀ v, a.venue_address = some v → b.venue_address = none →
        (mergeRec a b).venue_address = some v) ∧
      (∀ v, a.venue_address = none → b.venue_address = some v →
        (mergeRec a b).venue_address = some v) ∧
      (a.venue_address.isSome = true → b.venue_address.isSome = true →
        confRank b.address_confidence < confRank a.address_confidence →
        (mergeRec a b).venue_address = a.venue_address) ∧
      (a.venue_address.isSome = true → b.venue_address.isSome = true →
        confRank a.address_confidence < confRank b.address_confidence →
        (mergeRec a b).venue_address = b.venue_address) ∧
      (a.description.isSome = true → b.description.isSome = true →
        nonNullCount b < nonNullCount a →
        (mergeRec a b).description = a.description) ∧
      (a.description.isSome = true → b.description.isSome = true →
        nonNullCount a < nonNullCount b →
        (mergeRec a b).description = b.description) ∧
      (a.description.isSome = true → b.description.isSome = true →
        nonNullCount a = nonNullCount b → b.last_updated ≤ a.last_updated →
        (mergeRec a b).description = a.description) ∧
      (a.description.isSome = true → b.description.isSome = true →
        nonNullCount a = nonNullCount b → a.last_updated < b.last_updated →
        (mergeRec a b).description = b.description) ∧
      (a.venue_address.isSome = true → b.venue_address.isSome = true →
        a.address_confidence = b.address_confidence →
        nonNullCount b < nonNullCount a →
        (mergeRec a b).venue_address = a.venue_address) := by
  intro a b
  have hdesc := mergeRec_description_eq a b
  have hva := mergeRec_venue_address_eq a b
  refine ⟨?_, ?_, ?_, ?_, ?_, ?_, ?_, ?_, ?_, ?_, ?_⟩
  · intro v h1 h2
    rw [hdesc, h1, h2]
    rfl
  · intro v h1 h2
    rw [hdesc, h1, h2]
    rfl
  · intro v h1 h2
    rw [hva, h1, h2]
    rfl
  · intro v h1 h2
    rw [hva, h1, h2]
    rfl
  · intro h1 h2 hc
    obtain ⟨va, ha⟩ := Option.isSome_iff_exists.1 h1
    obtain ⟨vb, hb⟩ := Option.isSome_iff_exists.1 h2
    rw [hva, addressWinner_first_of_conf a b hc, if_pos rfl, ha, hb]
    rfl
  · intro h1 h2 hc
    obtain ⟨va, ha⟩ := Option.isSome_iff_exists.1 h1
    obtain ⟨vb, hb⟩ := Option.isSome_iff_exists.1 h2
    rw [hva, addressWinner_second_of_conf a b hc,
      if_neg Bool.false_ne_true, ha, hb]
    rfl
  · intro h1 h2 hc
    obtain ⟨va, ha⟩ := Option.isSome_iff_exists.1 h1
    obtain ⟨vb, hb⟩ := Option.isSome_iff_exists.1 h2
    rw [hdesc, generalWinner_first_of_count a b hc, if_pos rfl, ha, hb]
    rfl
  · intro h1 h2 hc
    obtain ⟨va, ha⟩ := Option.isSome_iff_exists.1 h1
    obtain ⟨vb, hb⟩ := Option.isSome_iff_exists.1 h2
    rw [hdesc, generalWinner_second_of_count a b hc,
      if_neg Bool.false_ne_true, ha, hb]
    rfl
  · intro h1 h2 hc ht
    obtain ⟨va, ha⟩ := Option.isSome_iff_exists.1 h1
    obtain ⟨vb, hb⟩ := Option.isSome_iff_exists.1 h2
    rw [hdesc, generalWinner_first_of_time a b hc ht, if_pos rfl, ha, hb]
    rfl
  · intro h1 h2 hc ht
    obtain ⟨va, ha⟩ := Option.isSome_iff_exists.1 h1
    obtain ⟨vb, hb⟩ := Option.isSome_iff_exists.1 h2
    rw [hdesc, generalWinner_second_of_time a b hc ht,
      if_neg Bool.false_ne_true, ha, hb]
    rfl
  · intro h1 h2 hconf hc
    obtain ⟨va, ha⟩ := Option.isSome_iff_exists.1 h1
    obtain ⟨vb, hb⟩ := Option.isSome_iff_exists.1 h2
    rw [hva, addressWinner_tie a b hconf,
      generalWinner_first_of_count a b hc, if_pos rfl, ha, hb]
    rfl

/-- Witness for C7 at the two sample records: `recA` is more complete, so
its `start_date` survives; both have a description conflict resolved to the
more complete record `recA`... here checked on `description` with `recB`
null. -/
theorem mergeRec_precedence_spec_witness :
    (mergeRec recA recB).description = some "A big expo." ∧
    (mergeRec recA recB).venue_address = some "Tumkur Road" :=
  ⟨(mergeRec_precedence_spec recA recB).2.1 "A big expo." rfl rfl,
   (mergeRec_precedence_spec recA recB).2.2.1 "Tumkur Road" rfl rfl⟩

/-! ## Lemmas about the Loader's store -/

theorem setFields_map_url (s : List StoredRow) (u : String)
    (pay : NormalizedRecord × Coord) :
    (setFields s u pay).map (fun row => row.url) = s.map (fun row => row.url) := by
  unfold setFields
  rw [List.map_map]
  apply List.map_congr_left
  intro row _
  dsimp
  split
  · rfl
  · rfl

theorem hasUrl_iff (s : List StoredRow) (u : String) :
    hasUrl s u = true ↔ u ∈ s.map (fun row => row.url) := by
  unfold hasUrl
  rw [List.any_eq_true]
  constructor
  · rintro ⟨row, hmem, hp⟩
    rw [decide_eq_true_eq] at hp
    exact hp ▸ List.mem_map_of_mem _ hmem
  · intro h
    obtain ⟨row, hmem, hu⟩ := List.mem_map.1 h
    exact ⟨row, hmem, by rw [decide_eq_true_eq]; exact hu⟩

theorem hasUrl_setFields (s : List StoredRow) (u u' : String)
    (pay : NormalizedRecord × Coord) :
    hasUrl (setFields s u' pay) u = hasUrl s u := by
  by_cases h : hasUrl s u = true
  · rw [h, ← Bool.true_eq]
    symm
    rw [hasUrl_iff, setFields_map_url]
    exact (hasUrl_iff s u).1 h
  · rw [Bool.not_eq_true] at h
    rw [h]
    rw [← Bool.not_eq_true, hasUrl_iff, setFields_map_url, ← hasUrl_iff]
    simp [h]

theorem upsert_map_url_mem (s : List StoredRow) (r : NormalizedRecord)
    (c : Coord) (h : hasUrl s r.event_url = true) :
    (upsert s r c).map (fun row => row.url) = s.map (fun row => row.url) := by
  unfold upsert
  rw [if_pos h]
  exact setFields_map_url s r.event_url (r, c)

theorem upsert_map_url_new (s : List StoredRow) (r : NormalizedRecord)
    (c : Coord) (h : hasUrl s r.event_url = false) :
    (upsert s r c).map (fun row => row.url) =
      s.map (fun row => row.url) ++ [r.event_url] := by
  unfold upsert
  rw [if_neg (by simp [h])]
  simp

theorem upsert_url_mono (s : List StoredRow) (r : NormalizedRecord)
    (c : Coord) (u : String) (h : u ∈ s.map (fun row => row.url)) :
    u ∈ (upsert s r c).map (fun row => row.url) := by
  by_cases hc : hasUrl s r.event_url = true
  · rw [upsert_map_url_mem s r c hc]
    exact h
  · rw [upsert_map_url_new s r c (by simpa using hc)]
    simp [h]

theorem upsert_self_mem (s : List StoredRow) (r : NormalizedRecord)
    (c : Coord) : r.event_url ∈ (upsert s r c).map (fun row => row.url) := by
  by_cases hc : hasUrl s r.event_url = true
  · rw [upsert_map_url_mem s r c hc]
    exact (hasUrl_iff s r.event_url).1 hc
  · rw [upsert_map_url_new s r c (by simpa using hc)]
    simp

theorem nodup_upsert (s : List StoredRow) (r : NormalizedRecord) (c : Coord)
    (hnd : (s.map (fun row => row.url)).Nodup) :
    ((upsert s r c).map (fun row => row.url)).Nodup := by
  by_cases hc : hasUrl s r.event_url = true
  · rw [upsert_map_url_mem s r c hc]
    exact hnd
  · rw [upsert_map_url_new s r c (by simpa using hc)]
    have : r.event_url ∉ s.map (fun row => row.url) := by
      intro hmem
      exact absurd ((hasUrl_iff s r.event_url).2 hmem) (by simpa using hc)
    simp [List.nodup_append, hnd, List.disjoint_singleton, this]

theorem upsert_eq_setFields (s : List StoredRow) (r : NormalizedRecord)
    (c : Coord) (h : hasUrl s r.event_url = true) :
    upsert s r c = setFields s r.event_url (r, c) := by
  unfold upsert
  rw [if_pos h]

theorem setFields_setFields (t : List StoredRow) (u : String)
    (p1 p2 : NormalizedRecord × Coord) :
    setFields (setFields t u p1) u p2 = setFields t u p2 := by
  unfold setFields
  rw [List.map_map]
  apply List.map_congr_left
  intro row _
  by_cases h : row.url = u
  · simp [h]
  · simp [h]

theorem setFields_comm (t : List StoredRow) (u u' : String)
    (p1 p2 : NormalizedRecord × Coord) (hne : u ≠ u') :
    setFields (setFields t u p1) u' p2 = setFields (setFields t u' p2) u p1 := by
  unfold setFields
  rw [List.map_map, List.map_map]
  apply List.map_congr_left
  intro row _
  by_cases h : row.url = u
  · have h' : row.url ≠ u' := fun hx => hne (h ▸ hx)
    simp [h, h', hne, Ne.symm hne]
  · by_cases h' : row.url = u'
    · simp [h, h', hne, Ne.symm hne]
    · simp [h, h']

theorem setFields_append (t : List StoredRow) (row : StoredRow) (u : String)
    (pay : NormalizedRecord × Coord) (hne : row.url ≠ u) :
    setFields (t ++ [row]) u pay = setFields t u pay ++ [row] := by
  unfold setFields
  rw [List.map_append]
  simp [hne]

theorem upsert_setFields_comm (t : List StoredRow) (r : NormalizedRecord)
    (c : Coord) (u : String) (pay : NormalizedRecord × Coord)
    (hne : r.event_url ≠ u) :
    upsert (setFields t u pay) r c = setFields (upsert t r c) u pay := by
  by_cases hc : hasUrl t r.event_url = true
  · rw [upsert_eq_setFields _ r c (by rw [hasUrl_setFields]; exact hc),
      upsert_eq_setFields t r c hc]
    exact setFields_comm t u r.event_url pay (r, c) (fun h => hne h.symm)
  · unfold upsert
    rw [hasUrl_setFields t r.event_url u pay]
    rw [if_neg (by simp [hc]), if_neg (by simp [hc])]
    exact (setFields_append t _ u pay hne).symm

theorem rowAt_setFields_self (t : List StoredRow) (u : String)
    (pay : NormalizedRecord × Coord) :
    rowAt (setFields t u pay) u =
      (rowAt t u).map (fun _ => ({ url := u, payload := pay } : StoredRow)) := by
  induction t with
  | nil => rfl
  | cons row0 t ih =>
    unfold rowAt setFields at ih ⊢
    rw [List.map_cons]
    by_cases h : row0.url = u
    · rw [if_pos h]
      rw [List.find?_cons_of_pos _ (by simpa using h),
        List.find?_cons_of_pos _ (by simpa using h)]
      simp [h]
    · rw [if_neg h]
      rw [List.find?_cons_of_neg _ (by simpa using h),
        List.find?_cons_of_neg _ (by simpa using h)]
      exact ih

theorem rowAt_setFields_other (t : List StoredRow) (u u' : String)
    (pay : NormalizedRecord × Coord) (hne : u ≠ u') :
    rowAt (setFields t u' pay) u = rowAt t u := by
  induction t with
  | nil => rfl
  | cons row0 t ih =>
    unfold rowAt setFields at ih ⊢
    rw [List.map_cons]
    by_cases h : row0.url = u'
    · rw [if_pos h]
      have hno : ¬ row0.url = u := fun hx => hne (hx.symm.trans h)
      rw [List.find?_cons_of_neg _ (by simpa using hno),
        List.find?_cons_of_neg _ (by simpa using hno)]
      exact ih
    · rw [if_neg h]
      by_cases h2 : row0.url = u
      · rw [List.find?_cons_of_pos _ (by simpa using h2),
          List.find?_cons_of_pos _ (by simpa using h2)]
      · rw [List.find?_cons_of_neg _ (by simpa using h2),
          List.find?_cons_of_neg _ (by simpa using h2)]
        exact ih

theorem rowAt_none_of_not_mem (t : List StoredRow) (u : String)
    (h : u ∉ t.map (fun row => row.url)) : rowAt t u = none := by
  unfold rowAt
  rw [List.find?_eq_none]
  intro row hrow
  simp only [decide_eq_true_eq]
  intro hu
  exact h (hu ▸ List.mem_map_of_mem _ hrow)

theorem rowAt_upsert_self (s : List StoredRow) (r : NormalizedRecord)
    (c : Coord) :
    rowAt (upsert s r c) r.event_url =
      some { url := r.event_url, payload := (r, c) } := by
  by_cases hc : hasUrl s r.event_url = true
  · rw [upsert_eq_setFields s r c hc, rowAt_setFields_self]
    obtain ⟨row, hmem, hu⟩ :=
      List.mem_map.1 ((hasUrl_iff s r.event_url).1 hc)
    cases hrow : rowAt s r.event_url with
    | none =>
      unfold rowAt at hrow
      have := List.find?_eq_none.1 hrow row hmem
      simp [hu] at this
    | some row0 => rfl
  · unfold upsert
    rw [if_neg (by simp [hc]), rowAt, List.find?_append]
    have hnone : List.find? (fun row => decide (row.url = r.event_url)) s = none := by
      have := rowAt_none_of_not_mem s r.event_url
        (fun hmem => absurd ((hasUrl_iff s r.event_url).2 hmem) (by simp [hc]))
      unfold rowAt at this
      exact this
    rw [hnone]
    simp

theorem rowAt_upsert_other (s : List StoredRow) (r : NormalizedRecord)
    (c : Coord) (u : String) (hne : r.event_url ≠ u) :
    rowAt (upsert s r c) u = rowAt s u := by
  by_cases hc : hasUrl s r.event_url = true
  · rw [upsert_eq_setFields s r c hc]
    exact rowAt_setFields_other s u r.event_url (r, c) (Ne.symm hne)
  · unfold upsert
    rw [if_neg (by simp [hc]), rowAt, List.find?_append]
    cases hrow : rowAt s u with
    | some row0 =>
      unfold rowAt at hrow
      rw [hrow]
      rfl
    | none =>
      unfold rowAt at hrow
      rw [hrow]
      simp [hne]

theorem row_eq_of_nodup (s : List StoredRow) (u : String) (row0 : StoredRow)
    (hnd : (s.map (fun row => row.url)).Nodup) (hrow : rowAt s u = some row0) :
    ∀ row ∈ s, row.url = u → row = row0 := by
  induction s with
  | nil => intro row hmem; simp at hmem
  | cons h0 t ih =>
    rw [List.map_cons, List.nodup_cons] at hnd
    intro row hmem hu
    by_cases hh : h0.url = u
    · unfold rowAt at hrow
      rw [List.find?_cons_of_pos _ (by simpa using hh)] at hrow
      cases hrow
      rcases List.mem_cons.1 hmem with rfl | hmem
      · rfl
      · exfalso
        apply hnd.1
        rw [hh, ← hu]
        exact List.mem_map_of_mem _ hmem
    · unfold rowAt at hrow
      rw [List.find?_cons_of_neg _ (by simpa using hh)] at hrow
      rcases List.mem_cons.1 hmem with rfl | hmem
      · exact absurd hu hh
      · exact ih hnd.2 hrow row hmem hu

theorem setFields_id (t : List StoredRow) (u : String)
    (pay : NormalizedRecord × Coord)
    (h : ∀ row ∈ t, row.url = u → row = { url := u, payload := pay }) :
    setFields t u pay = t := by
  unfold setFields
  rw [show t = t.map id from (List.map_id t).symm]
  rw [List.map_map]
  apply List.map_congr_left
  intro row hmem
  simp only [Function.comp, List.map_id, id]
  by_cases hu : row.url = u
  · rw [if_pos hu]
    rw [h row hmem hu]
  · rw [if_neg hu]

theorem upsert_already (s : List StoredRow) (r : NormalizedRecord) (c : Coord)
    (hnd : (s.map (fun row => row.url)).Nodup)
    (hrow : rowAt s r.event_url = some { url := r.event_url, payload := (r, c) }) :
    upsert s r c = s := by
  have hmem : hasUrl s r.event_url = true := by
    rw [hasUrl_iff]
    have := List.mem_of_find?_eq_some hrow
    have hp := List.find?_some hrow
    rw [decide_eq_true_eq] at hp
    rw [← hp]
    exact List.mem_map_of_mem _ this
  rw [upsert_eq_setFields s r c hmem]
  exact setFields_id s r.event_url (r, c)
    (fun row hm hu => row_eq_of_nodup s r.event_url _ hnd hrow row hm hu)

theorem loadStore_cons (g : String → Option Coord) (w : NormalizedRecord → Bool)
    (t : List StoredRow) (r : NormalizedRecord) (tl : List NormalizedRecord) :
    loadStore g w t (r :: tl) =
      loadStore g w (if willWrite g w r then upsert t r (coordOf g r) else t) tl :=
  rfl

theorem loadStore_url_mono (g : String → Option Coord)
    (w : NormalizedRecord → Bool) :
    ∀ (tl : List NormalizedRecord) (t : List StoredRow) (u : String),
      u ∈ t.map (fun row => row.url) →
      u ∈ (loadStore g w t tl).map (fun row => row.url) := by
  intro tl
  induction tl with
  | nil => intro t u h; exact h
  | cons r tl ih =>
    intro t u h
    rw [loadStore_cons]
    by_cases hw : willWrite g w r = true
    · rw [if_pos hw]
      exact ih _ u (upsert_url_mono t r (coordOf g r) u h)
    · rw [if_neg hw]
      exact ih t u h

theorem loadStore_nodup (g : String → Option Coord)
    (w : NormalizedRecord → Bool) :
    ∀ (tl : List NormalizedRecord) (t : List StoredRow),
      (t.map (fun row => row.url)).Nodup →
      ((loadStore g w t tl).map (fun row => row.url)).Nodup := by
  intro tl
  induction tl with
  | nil => intro t h; exact h
  | cons r tl ih =>
    intro t h
    rw [loadStore_cons]
    by_cases hw : willWrite g w r = true
    · rw [if_pos hw]
      exact ih _ (nodup_upsert t r (coordOf g r) h)
    · rw [if_neg hw]
      exact ih t h

theorem loadStore_rowAt_preserve (g : String → Option Coord)
    (w : NormalizedRecord → Bool) :
    ∀ (tl : List NormalizedRecord) (t : List StoredRow) (u : String),
      (∀ r' ∈ tl, willWrite g w r' = true → r'.event_url ≠ u) →
      rowAt (loadStore g w t tl) u = rowAt t u := by
  intro tl
  induction tl with
  | nil => intro t u _; rfl
  | cons r tl ih =>
    intro t u hno
    rw [loadStore_cons]
    by_cases hw : willWrite g w r = true
    · rw [if_pos hw]
      rw [ih _ u (fun r' hr' => hno r' (List.mem_cons.2 (Or.inr hr')))]
      exact rowAt_upsert_other t r (coordOf g r) u
        (hno r (List.mem_cons.2 (Or.inl rfl)) hw)
    · rw [if_neg hw]
      exact ih t u (fun r' hr' => hno r' (List.mem_cons.2 (Or.inr hr')))

theorem loadStore_setFields_absorb (g : String → Option Coord)
    (w : NormalizedRecord → Bool) :
    ∀ (tl : List NormalizedRecord) (t : List StoredRow) (u : String)
      (pay : NormalizedRecord × Coord),
      u ∈ t.map (fun row => row.url) →
      (∃ r' ∈ tl, willWrite g w r' = true ∧ r'.event_url = u) →
      loadStore g w (setFields t u pay) tl = loadStore g w t tl := by
  intro tl
  induction tl with
  | nil =>
    intro t u pay _ hex
    obtain ⟨r', hr', -⟩ := hex
    simp at hr'
  | cons r tl ih =>
    intro t u pay hmem hex
    rw [loadStore_cons, loadStore_cons]
    by_cases hw : willWrite g w r = true
    · rw [if_pos hw, if_pos hw]
      by_cases hu : r.event_url = u
      · have hc1 : hasUrl t r.event_url = true := by
          rw [hasUrl_iff, hu]
          exact hmem
        have hc2 : hasUrl (setFields t u pay) r.event_url = true := by
          rw [hasUrl_setFields]
          exact hc1
        rw [upsert_eq_setFields _ r _ hc2, upsert_eq_setFields t r _ hc1, hu,
          setFields_setFields]
      · rw [upsert_setFields_comm t r (coordOf g r) u pay hu]
        apply ih
        · exact upsert_url_mono t r (coordOf g r) u hmem
        · obtain ⟨r', hr', hw', hu'⟩ := hex
          rcases List.mem_cons.1 hr' with rfl | hr'
          · exact absurd hu' hu
          · exact ⟨r', hr', hw', hu'⟩
    · rw [if_neg hw, if_neg hw]
      apply ih t u pay hmem
      obtain ⟨r', hr', hw', hu'⟩ := hex
      rcases List.mem_cons.1 hr' with rfl | hr'
      · exact absurd hw' hw
      · exact ⟨r', hr', hw', hu'⟩

theorem loadStore_idem (g : String → Option Coord)
    (w : NormalizedRecord → Bool) :
    ∀ (ms : List NormalizedRecord) (s : List StoredRow),
      (s.map (fun row => row.url)).Nodup →
      loadStore g w (loadStore g w s ms) ms = loadStore g w s ms := by
  intro ms
  induction ms with
  | nil => intro s _; rfl
  | cons r tl ih =>
    intro s hnd
    by_cases hw : willWrite g w r = true
    · have hnd' : ((upsert s r (coordOf g r)).map (fun row => row.url)).Nodup :=
        nodup_upsert s r (coordOf g r) hnd
      have hS : loadStore g w s (r :: tl) =
          loadStore g w (upsert s r (coordOf g r)) tl := by
        rw [loadStore_cons, if_pos hw]
      rw [hS, loadStore_cons g w (loadStore g w (upsert s r (coordOf g r)) tl)
        r tl, if_pos hw]
      by_cases hex : ∃ r' ∈ tl, willWrite g w r' = true ∧
          r'.event_url = r.event_url
      · have hmem : r.event_url ∈
            (loadStore g w (upsert s r (coordOf g r)) tl).map
              (fun row => row.url) :=
          loadStore_url_mono g w tl _ r.event_url
            (upsert_self_mem s r (coordOf g r))
        have hc : hasUrl (loadStore g w (upsert s r (coordOf g r)) tl)
            r.event_url = true := (hasUrl_iff _ _).2 hmem
        rw [upsert_eq_setFields _ r _ hc]
        rw [loadStore_setFields_absorb g w tl _ r.event_url _ hmem hex]
        exact ih _ hnd'
      · have hno : ∀ r' ∈ tl, willWrite g w r' = true →
            r'.event_url ≠ r.event_url := by
          intro r' hr' hw' hu'
          exact hex ⟨r', hr', hw', hu'⟩
        have hrow : rowAt (loadStore g w (upsert s r (coordOf g r)) tl)
            r.event_url =
            some { url := r.event_url, payload := (r, coordOf g r) } := by
          rw [loadStore_rowAt_preserve g w tl _ r.event_url hno]
          exact rowAt_upsert_self s r (coordOf g r)
        rw [upsert_already _ r (coordOf g r)
          (loadStore_nodup g w tl _ hnd') hrow]
        exact ih _ hnd'
    · rw [loadStore_cons, if_neg hw, loadStore_cons, if_neg hw]
      exact ih s hnd

theorem isSome_of_not_isNone {o : Option String} (h : ¬ o.isNone = true) :
    o.isSome = true := by
  cases o
  · simp at h
  · rfl

theorem loadStep_store (g : String → Option Coord) (w : NormalizedRecord → Bool)
    (s : List StoredRow) (cnt : LoadSummary) (r : NormalizedRecord) :
    (loadStep g w (s, cnt) r).1 =
      if willWrite g w r then upsert s r (coordOf g r) else s := by
  unfold loadStep willWrite coordOf
  by_cases hn : r.event_name.isNone = true
  · have hs : r.event_name.isSome = false := by
      cases hv : r.event_name
      · rfl
      · rw [hv] at hn
        simp at hn
    simp [hn, hs]
  · have hs : r.event_name.isSome = true := isSome_of_not_isNone hn
    cases hg : g r.resolved_venue_address with
    | none => simp [hn, hs, hg]
    | some c =>
      by_cases hw' : w r = true
      · simp [hn, hs, hg, hw']
      · by_cases hc : hasUrl s r.event_url = true
        · simp [hn, hs, hg, hw', hc]
        · simp [hn, hs, hg, hw', hc]

theorem load_to_store_fst (g : String → Option Coord)
    (w : NormalizedRecord → Bool) :
    ∀ (ms : List NormalizedRecord) (s : List StoredRow) (cnt : LoadSummary),
      (ms.foldl (loadStep g w) (s, cnt)).1 = loadStore g w s ms := by
  intro ms
  induction ms with
  | nil => intro s cnt; rfl
  | cons r tl ih =>
    intro s cnt
    rw [List.foldl_cons]
    rcases hsc : loadStep g w (s, cnt) r with ⟨s', c'⟩
    have h1 := loadStep_store g w s cnt r
    rw [hsc] at h1
    dsimp at h1
    rw [ih s' c', loadStore_cons, ← h1]

/-- Component-wise addition of run summaries. -/
def addSummary (c d : LoadSummary) : LoadSummary :=
  ⟨c.inserted + d.inserted, c.updated + d.updated,
   c.skipped + d.skipped, c.failed + d.failed⟩

theorem addSummary_zero (c : LoadSummary) : addSummary c ⟨0, 0, 0, 0⟩ = c := by
  obtain ⟨a, b, d, e⟩ := c
  rfl

theorem addSummary_assoc (c d e : LoadSummary) :
    addSummary (addSummary c d) e = addSummary c (addSummary d e) := by
  obtain ⟨a1, a2, a3, a4⟩ := c
  obtain ⟨b1, b2, b3, b4⟩ := d
  obtain ⟨c1, c2, c3, c4⟩ := e
  unfold addSummary
  dsimp
  rw [Nat.add_assoc, Nat.add_assoc, Nat.add_assoc, Nat.add_assoc]

theorem loadStep_decompose (g : String → Option Coord)
    (w : NormalizedRecord → Bool) (s : List StoredRow) (cnt : LoadSummary)
    (r : NormalizedRecord) :
    loadStep g w (s, cnt) r =
      ((loadStep g w (s, ⟨0, 0, 0, 0⟩) r).1,
        addSummary cnt (loadStep g w (s, ⟨0, 0, 0, 0⟩) r).2) := by
  obtain ⟨ci, cu, cs, cf⟩ := cnt
  unfold loadStep
  by_cases hn : r.event_name.isNone = true
  · simp [hn, addSummary]
  · cases hg : g r.resolved_venue_address with
    | none => simp [hn, hg, addSummary]
    | some c =>
      by_cases hw' : w r = true
      · simp [hn, hg, hw', addSummary]
      · by_cases hc : hasUrl s r.event_url = true
        · simp [hn, hg, hw', hc, addSummary]
        · simp [hn, hg, hw', hc, addSummary]

theorem fold_loadStep_decompose (g : String → Option Coord)
    (w : NormalizedRecord → Bool) :
    ∀ (ms : List NormalizedRecord) (s : List StoredRow) (cnt : LoadSummary),
      ms.foldl (loadStep g w) (s, cnt) =
        ((ms.foldl (loadStep g w) (s, ⟨0, 0, 0, 0⟩)).1,
          addSummary cnt (ms.foldl (loadStep g w) (s, ⟨0, 0, 0, 0⟩)).2) := by
  intro ms
  induction ms with
  | nil =>
    intro s cnt
    dsimp
    rw [addSummary_zero]
  | cons r tl ih =>
    intro s cnt
    rw [List.foldl_cons, List.foldl_cons, loadStep_decompose g w s cnt r]
    rcases hd : loadStep g w (s, ⟨0, 0, 0, 0⟩) r with ⟨s0, d0⟩
    dsimp
    rw [ih s0 (addSummary cnt d0), ih s0 d0]
    dsimp
    rw [addSummary_assoc]

theorem loadStep_count_sum (g : String → Option Coord)
    (w : NormalizedRecord → Bool) (s : List StoredRow) (cnt : LoadSummary)
    (r : NormalizedRecord) :
    (loadStep g w (s, cnt) r).2.inserted + (loadStep g w (s, cnt) r).2.updated +
      (loadStep g w (s, cnt) r).2.skipped + (loadStep g w (s, cnt) r).2.failed =
    cnt.inserted + cnt.updated + cnt.skipped + cnt.failed + 1 := by
  obtain ⟨ci, cu, cs, cf⟩ := cnt
  unfold loadStep
  by_cases hn : r.event_name.isNone = true
  · simp [hn]
    omega
  · cases hg : g r.resolved_venue_address with
    | none =>
      simp [hn, hg]
      omega
    | some c =>
      by_cases hw' : w r = true
      · simp [hn, hg, hw']
        omega
      · by_cases hc : hasUrl s r.event_url = true
        · simp [hn, hg, hw', hc]
          omega
        · simp [hn, hg, hw', hc]
          omega

theorem fold_loadStep_count_sum (g : String → Option Coord)
    (w : NormalizedRecord → Bool) :
    ∀ (ms : List NormalizedRecord) (s : List StoredRow) (cnt : LoadSummary),
      (ms.foldl (loadStep g w) (s, cnt)).2.inserted +
        (ms.foldl (loadStep g w) (s, cnt)).2.updated +
        (ms.foldl (loadStep g w) (s, cnt)).2.skipped +
        (ms.foldl (loadStep g w) (s, cnt)).2.failed =
      cnt.inserted + cnt.updated + cnt.skipped + cnt.failed + ms.length := by
  intro ms
  induction ms with
  | nil => intro s cnt; rfl
  | cons r tl ih =>
    intro s cnt
    rw [List.foldl_cons]
    rcases hsc : loadStep g w (s, cnt) r with ⟨s', c'⟩
    have h1 := loadStep_count_sum g w s cnt r
    rw [hsc] at h1
    dsimp at h1
    rw [ih s' c', h1, List.length_cons]
    omega

theorem addSummary_skip_shift (cA d : LoadSummary) :
    addSummary ⟨cA.inserted, cA.updated, cA.skipped + 1, cA.failed⟩ d =
      addSummary (addSummary cA d) ⟨0, 0, 1, 0⟩ := by
  obtain ⟨a1, a2, a3, a4⟩ := cA
  obtain ⟨b1, b2, b3, b4⟩ := d
  simp [addSummary]
  omega

/-- Claim C8: the Loader never aborts a batch — a record whose address
permanently fails to geocode is skipped and counted while the rest of the
batch is still processed and the store is unaffected by it — and the
returned summary's counts always satisfy
`inserted + updated + skipped + failed = consolidated` (so
`loaded + skipped + failed = consolidated` with `loaded = inserted +
updated`). -/
theorem load_summary_spec :
    (∀ (g : String → Option Coord) (w : NormalizedRecord → Bool)
        (s : List StoredRow) (ms : List NormalizedRecord),
      (load_to_store g w s ms).2.inserted + (load_to_store g w s ms).2.updated +
        (load_to_store g w s ms).2.skipped +
        (load_to_store g w s ms).2.failed = ms.length) ∧
    ∀ (g : String → Option Coord) (w : NormalizedRecord → Bool)
        (s : List StoredRow) (ms₁ : List NormalizedRecord)
        (r : NormalizedRecord) (ms₂ : List NormalizedRecord),
      r.event_name.isSome = true →
      g r.resolved_venue_address = none →
      load_to_store g w s (ms₁ ++ r :: ms₂) =
        ((load_to_store g w s (ms₁ ++ ms₂)).1,
          addSummary (load_to_store g w s (ms₁ ++ ms₂)).2 ⟨0, 0, 1, 0⟩) := by
  constructor
  · intro g w s ms
    unfold load_to_store
    have := fold_loadStep_count_sum g w ms s ⟨0, 0, 0, 0⟩
    simpa using this
  · intro g w s ms₁ r ms₂ hname hgeo
    unfold load_to_store
    rw [List.foldl_append, List.foldl_append, List.foldl_cons]
    rcases h1 : ms₁.foldl (loadStep g w) (s, ⟨0, 0, 0, 0⟩) with ⟨s₁, c₁⟩
    have hn : r.event_name.isNone = false := by
      cases hv : r.event_name
      · rw [hv] at hname
        simp at hname
      · rfl
    have hstep : loadStep g w (s₁, c₁) r =
        (s₁, { c₁ with skipped := c₁.skipped + 1 }) := by
      unfold loadStep
      simp [hn, hgeo]
    rw [hstep, fold_loadStep_decompose g w ms₂ s₁
      { c₁ with skipped := c₁.skipped + 1 },
      fold_loadStep_decompose g w ms₂ s₁ c₁]
    dsimp
    rw [addSummary_skip_shift c₁ (ms₂.foldl (loadStep g w) (s₁, ⟨0, 0, 0, 0⟩)).2]

/-- A normalized record whose address the geocoder cannot resolve. -/
def recFail : NormalizedRecord :=
  ⟨"district.in:9", "https://district.in/e/9", "district.in",
   some "Mystery Meetup", none, none, none, none,
   none, none, none, none, none, none, none, none, "", .low, 3⟩

/-- Witness for C8: a batch of one unresolvable record is skipped, counted,
and leaves the store untouched. -/
theorem load_summary_spec_witness :
    load_to_store (fun _ => none) (fun _ => false) [] ([] ++ recFail :: []) =
      ((load_to_store (fun _ => none) (fun _ => false) [] ([] ++ [])).1,
        addSummary
          (load_to_store (fun _ => none) (fun _ => false) [] ([] ++ [])).2
          ⟨0, 0, 1, 0⟩) :=
  load_summary_spec.2 (fun _ => none) (fun _ => false) [] [] recFail []
    (by decide) rfl

/-- Claim C1: for every MasterRecord whose `url` already exists in the
store, the upsert updates the existing row's non-key fields in place — the
key set and the row count are unchanged and no second row appears — and
running the full pipeline twice on unchanged raw input leaves the store
(row count and content) unchanged. -/
theorem loader_idempotent_spec :
    (∀ (s : List StoredRow) (r : NormalizedRecord) (c : Coord),
      hasUrl s r.event_url = true →
      (upsert s r c).length = s.length ∧
      (upsert s r c).map (fun row => row.url) = s.map (fun row => row.url) ∧
      rowAt (upsert s r c) r.event_url =
        some { url := r.event_url, payload := (r, c) }) ∧
    ∀ (g : String → Option Coord) (w : NormalizedRecord → Bool)
      (s : List StoredRow) (raws : List RawRecord),
      (s.map (fun row => row.url)).Nodup →
      (runPipeline g w (runPipeline g w s raws).1 raws).1 =
        (runPipeline g w s raws).1 := by
  constructor
  · intro s r c h
    refine ⟨?_, upsert_map_url_mem s r c h, rowAt_upsert_self s r c⟩
    rw [upsert_eq_setFields s r c h]
    unfold setFields
    exact List.length_map s _
  · intro g w s raws hnd
    unfold runPipeline load_to_store
    rw [load_to_store_fst g w, load_to_store_fst g w]
    exact loadStore_idem g w (consolidate (raws.map normalizeRecord)) s hnd

/-- A raw record as a collector would emit it. -/
def rawFull : RawRecord :=
  ⟨"allevents.in", "7", some "https://allevents.in/e/7", some "Expo",
   some "2026-02-01", some "10 am", none, none, some "BIEC",
   some "Tumkur Road", none, none, none, none, none, some "Bangalore", 5⟩

/-- Witness for C1: a one-row store absorbs an update in place, and a
one-record pipeline is idempotent from the empty store. -/
theorem loader_idempotent_spec_witness :
    (upsert [{ url := "https://allevents.in/e/7", payload := (recB, (0, 0)) }]
        recA (1, 2)).length = 1 ∧
    (runPipeline (fun _ => some (1, 2)) (fun _ => false)
        (runPipeline (fun _ => some (1, 2)) (fun _ => false) [] [rawFull]).1
        [rawFull]).1 =
      (runPipeline (fun _ => some (1, 2)) (fun _ => false) [] [rawFull]).1 :=
  ⟨(loader_idempotent_spec.1
      [{ url := "https://allevents.in/e/7", payload := (recB, (0, 0)) }]
      recA (1, 2) (by decide)).1,
   loader_idempotent_spec.2 (fun _ => some (1, 2)) (fun _ => false) []
     [rawFull] (by simp)⟩

/-! ## Frontend claims -/

/-- Claim C9: `fetchEventDetails` returns a cached entry without issuing a
network request and leaves the cache unchanged; a failed fetch (response
not ok, or a thrown error) returns null with the cache unchanged; and the
cache gains exactly one entry — the successfully fetched one — otherwise
staying as it was. -/
theorem fetchEventDetails_spec {Details : Type} :
    ∀ (network : String → Option Details) (cache : List (String × Details))
      (eventId : String),
      (∀ d, cache.lookup eventId = some d →
        fetchEventDetails network cache eventId = (some d, cache, false)) ∧
      (cache.lookup eventId = none → network eventId = none →
        fetchEventDetails network cache eventId = (none, cache, true)) ∧
      (∀ data, cache.lookup eventId = none → network eventId = some data →
        fetchEventDetails network cache eventId =
          (some data, (eventId, data) :: cache, true)) ∧
      ((fetchEventDetails network cache eventId).2.1 = cache ∨
        ∃ data, network eventId = some data ∧
          (fetchEventDetails network cache eventId).2.1 =
            (eventId, data) :: cache) := by
  intro network cache eventId
  refine ⟨?_, ?_, ?_, ?_⟩
  · intro d hd
    unfold fetchEventDetails
    rw [hd]
  · intro hd hn
    unfold fetchEventDetails
    rw [hd, hn]
  · intro data hd hn
    unfold fetchEventDetails
    rw [hd, hn]
  · unfold fetchEventDetails
    cases hd : cache.lookup eventId with
    | some d => exact Or.inl rfl
    | none =>
      cases hn : network eventId with
      | some data => exact Or.inr ⟨data, rfl, rfl⟩
      | none => exact Or.inl rfl

/-- Witness for C9: a cached id is served from the cache with no request. -/
theorem fetchEventDetails_spec_witness :
    fetchEventDetails (fun _ => (none : Option Nat)) [("e1", 42)] "e1" =
      (some 42, [("e1", 42)], false) :=
  (fetchEventDetails_spec (fun _ => (none : Option Nat)) [("e1", 42)] "e1").1
    42 (by decide)

/-! ## Bridging the parsed filter values to exact rationals -/

theorem parseExpTail_pos (t : List Char) : 0 < (parseExpTail t).1 ∧
    0 < (parseExpTail t).2 := by
  unfold parseExpTail
  split <;> split <;> exact ⟨by positivity, by positivity⟩

theorem parseExpScale_pos (l : List Char) : 0 < (parseExpScale l).1 ∧
    0 < (parseExpScale l).2 := by
  unfold parseExpScale
  split
  · exact parseExpTail_pos _
  · exact parseExpTail_pos _
  · exact ⟨Nat.one_pos, Nat.one_pos⟩

theorem parseFloat_den_pos {s : String} {p : Int × Nat}
    (h : parseFloat s = some p) : 0 < p.2 := by
  unfold parseFloat buildFloat at h
  split at h
  · exact absurd h (by simp)
  · cases h
    exact Nat.mul_pos (Nat.pos_pow_of_pos _ (by norm_num))
      (parseExpScale_pos _).2

theorem ratOf_nonneg {p : Int × Nat} (h : floatNeg p = false) : 0 ≤ ratOf p := by
  unfold floatNeg at h
  rw [decide_eq_false_iff_not, not_lt] at h
  unfold ratOf
  apply div_nonneg
  · exact_mod_cast h
  · exact_mod_cast Nat.zero_le p.2

theorem ratOf_le_80 {p : Int × Nat} (hden : 0 < p.2)
    (h : floatGtNat p 80 = false) : ratOf p ≤ 80 := by
  unfold floatGtNat at h
  rw [decide_eq_false_iff_not, not_lt] at h
  unfold ratOf
  rw [div_le_iff₀ (by exact_mod_cast hden)]
  exact_mod_cast h

theorem setFilterField_max (f : Filters) (v : String) :
    (setFilterField f "max_distance_km" v).max_distance_km = v := rfl

theorem clampDistance_none (value : String) (h : parseFloat value = none) :
    clampDistance value = value := by
  unfold clampDistance
  rw [h]

theorem clampDistance_some (value : String) (n : Int × Nat)
    (h : parseFloat value = some n) :
    clampDistance value =
      if floatGtNat n 80 then "80" else if floatNeg n then "0" else value := by
  unfold clampDistance
  rw [h]

theorem handleInputChange_max (value : String) (f : Filters)
    (hval : value ≠ "") :
    (handleInputChange "max_distance_km" value f).max_distance_km =
      clampDistance value := by
  unfold handleInputChange
  rw [if_pos ⟨rfl, hval⟩]
  exact setFilterField_max f (clampDistance value)

/-- Claim C10: for every non-empty `max_distance_km` input,
`handleInputChange` stores a clamped value — a parsed value above 80 is
replaced by `"80"`, below 0 by `"0"` — so every numeric distance filter the
panel applies is between 0 and 80 km. -/
theorem handleInputChange_clamp_spec :
    ∀ (value : String) (f : Filters), value ≠ "" →
      (∀ p, parseFloat value = some p → floatGtNat p 80 = true →
        (handleInputChange "max_distance_km" value f).max_distance_km = "80") ∧
      (∀ p, parseFloat value = some p → floatGtNat p 80 = false →
        floatNeg p = true →
        (handleInputChange "max_distance_km" value f).max_distance_km = "0") ∧
      ∀ q, appliedMaxDistance (handleInputChange "max_distance_km" value f)
          = some q →
        0 ≤ ratOf q ∧ ratOf q ≤ 80 := by
  intro value f hval
  have hmax := handleInputChange_max value f hval
  refine ⟨?_, ?_, ?_⟩
  · intro p hp hgt
    rw [hmax, clampDistance_some value p hp]
    simp [hgt]
  · intro p hp hgt hneg
    rw [hmax, clampDistance_some value p hp]
    simp [hgt, hneg]
  · intro q hq
    unfold appliedMaxDistance at hq
    split at hq
    · exact absurd hq (by simp)
    · rw [hmax] at hq
      cases hp : parseFloat value with
      | none =>
        rw [clampDistance_none value hp, hp] at hq
        exact absurd hq (by simp)
      | some p =>
        rw [clampDistance_some value p hp] at hq
        by_cases hgt : floatGtNat p 80 = true
        · rw [if_pos hgt] at hq
          have h80 : parseFloat "80" = some (80, 1) := by decide
          rw [h80] at hq
          cases hq
          constructor
          · exact ratOf_nonneg (by decide)
          · exact ratOf_le_80 (by decide) (by decide)
        · rw [if_neg hgt] at hq
          by_cases hneg : floatNeg p = true
          · rw [if_pos hneg] at hq
            have h0 : parseFloat "0" = some (0, 1) := by decide
            rw [h0] at hq
            cases hq
            constructor
            · exact ratOf_nonneg (by decide)
            · exact ratOf_le_80 (by decide) (by decide)
          · rw [if_neg hneg] at hq
            rw [hp] at hq
            cases hq
            constructor
            · exact ratOf_nonneg (by simpa using hneg)
            · exact ratOf_le_80 (parseFloat_den_pos hp) (by simpa using hgt)

/-- Witness for C10: entering `"100"` stores the clamped `"80"`, and the
applied filter value is exactly 80. -/
theorem handleInputChange_clamp_spec_witness :
    (handleInputChange "max_distance_km" "100" defaultFilters).max_distance_km
      = "80" :=
  (handleInputChange_clamp_spec "100" defaultFilters (by decide)).1
    (100, 1) (by decide) (by decide)

end BNow
